import Mathlib

/-!
Verification of the `aiendsem` exam-grading pipeline.

This file gives a shallow embedding, over `ℚ` and `List Char`, of the
program's core: the `difflib.SequenceMatcher`-based similarity metric and the
four answer-search strategies (`ai_algorithms/search/answer_search.py`), the
Bayesian confidence scorer (`ai_algorithms/bayesian/confidence_scorer.py`),
the CSP rubric allocator (`ai_algorithms/csp/rubric_csp.py`), and the
question bank plus orchestrator (`grading_engine/grader.py`).

Modelling conventions:
* Python floats are modelled as exact rationals; Python's `round` (banker's
  rounding, round half to even) is modelled by `roundEven` below.  Every
  concrete counterexample in this file was chosen away from representation
  boundaries, so the rational trace and the float trace agree on it.
* Python strings are modelled as Lean `String` / `List Char`; the inputs in
  scope are ASCII, so `Char.toLower` models `str.lower`, `Char.isDigit`
  models `\d`, and the six ASCII whitespace characters model `\s`.
* Python dicts with fixed key sets become structures; the question bank dict
  (insertion ordered) becomes an association list in source order.
-/

namespace AiEndsem

/-! ## Python rounding

`roundEven q` is the integer Python's builtin `round(q)` returns on an exact
value: nearest integer, ties to the even neighbour.  `pyRound1 q` models
`round(q, 1)`. -/

def roundEven (q : ℚ) : ℤ :=
  if q - ⌊q⌋ < 1 / 2 then ⌊q⌋
  else if 1 / 2 < q - ⌊q⌋ then ⌊q⌋ + 1
  else if Even ⌊q⌋ then ⌊q⌋ else ⌊q⌋ + 1

/-- Model of Python's `round(x, 1)`. -/
def pyRound1 (q : ℚ) : ℚ := (roundEven (10 * q) : ℚ) / 10

theorem roundEven_intCast (n : ℤ) : roundEven (n : ℚ) = n := by
  simp [roundEven]

theorem floor_le_roundEven (q : ℚ) : ⌊q⌋ ≤ roundEven q := by
  unfold roundEven
  split_ifs <;> omega

theorem roundEven_le_floor_add_one (q : ℚ) : roundEven q ≤ ⌊q⌋ + 1 := by
  unfold roundEven
  split_ifs <;> omega

theorem roundEven_le_add_half (q : ℚ) : (roundEven q : ℚ) ≤ q + 1 / 2 := by
  have hfl : (⌊q⌋ : ℚ) ≤ q := Int.floor_le q
  have hfu : q < ⌊q⌋ + 1 := Int.lt_floor_add_one q
  unfold roundEven
  split_ifs with h1 h2 h3 <;> push_cast <;> linarith

theorem sub_half_le_roundEven (q : ℚ) : q - 1 / 2 ≤ (roundEven q : ℚ) := by
  have hfl : (⌊q⌋ : ℚ) ≤ q := Int.floor_le q
  have hfu : q < ⌊q⌋ + 1 := Int.lt_floor_add_one q
  unfold roundEven
  split_ifs with h1 h2 h3 <;> push_cast <;> linarith

theorem roundEven_mono {a b : ℚ} (h : a ≤ b) : roundEven a ≤ roundEven b := by
  rcases lt_or_eq_of_le (Int.floor_le_floor h) with hf | hf
  · calc roundEven a ≤ ⌊a⌋ + 1 := roundEven_le_floor_add_one a
      _ ≤ ⌊b⌋ := by omega
      _ ≤ roundEven b := floor_le_roundEven b
  · have hfr : a - ⌊a⌋ ≤ b - ⌊b⌋ := by
      rw [hf]; exact sub_le_sub_right h _
    unfold roundEven
    rw [hf]
    split_ifs <;> first | omega | linarith

theorem roundEven_nonneg {q : ℚ} (h : 0 ≤ q) : 0 ≤ roundEven q := by
  have := floor_le_roundEven q
  have : (0 : ℤ) ≤ ⌊q⌋ := Int.floor_nonneg.mpr h
  omega

theorem pyRound1_mono {a b : ℚ} (h : a ≤ b) : pyRound1 a ≤ pyRound1 b := by
  unfold pyRound1
  have := roundEven_mono (mul_le_mul_of_nonneg_left h (by norm_num : (0:ℚ) ≤ 10))
  have h' : (roundEven (10 * a) : ℚ) ≤ (roundEven (10 * b) : ℚ) := by exact_mod_cast this
  linarith

theorem pyRound1_nonneg {q : ℚ} (h : 0 ≤ q) : 0 ≤ pyRound1 q := by
  unfold pyRound1
  have : (0:ℤ) ≤ roundEven (10 * q) := roundEven_nonneg (by linarith)
  have h' : (0:ℚ) ≤ (roundEven (10 * q) : ℚ) := by exact_mod_cast this
  linarith

theorem pyRound1_le_add (q : ℚ) : pyRound1 q ≤ q + 1 / 20 := by
  unfold pyRound1
  have := roundEven_le_add_half (10 * q)
  linarith

theorem pyRound1_tenths (k : ℤ) : pyRound1 ((k : ℚ) / 10) = (k : ℚ) / 10 := by
  unfold pyRound1
  have h10 : (10 : ℚ) * ((k : ℚ) / 10) = (k : ℚ) := by ring
  rw [h10, roundEven_intCast]

/-- A rational is a multiple of one half (the 0.5 mark quantum). -/
def halfQuantized (q : ℚ) : Prop := ∃ k : ℤ, q = (k : ℚ) / 2

/-- A rational is a multiple of one tenth (Python's `round(x, 1)` grid). -/
def tenthQuantized (q : ℚ) : Prop := ∃ k : ℤ, q = (k : ℚ) / 10

/-! ## Python string basics -/

/-- The six ASCII characters matched by Python's `str.strip()` / `\s`
(the inputs in scope are ASCII). -/
def isPySpace (c : Char) : Bool :=
  c = ' ' ∨ c = '\t' ∨ c = '\n' ∨ c = '\r' ∨ c = Char.ofNat 11 ∨ c = Char.ofNat 12

/-- `str.lower()` (ASCII inputs). -/
def pyLower (s : String) : String := String.mk (s.data.map Char.toLower)

/-- `str.strip()`: drop leading and trailing whitespace. -/
def pyStripL (l : List Char) : List Char :=
  (((l.dropWhile isPySpace).reverse).dropWhile isPySpace).reverse

def pyStrip (s : String) : String := String.mk (pyStripL s.data)

/-- Python's substring test `sub in hay`. -/
def isSub (sub : List Char) : List Char → Bool
  | [] => sub.isPrefixOf []
  | c :: rest => sub.isPrefixOf (c :: rest) || isSub sub rest

/-- `sub in hay` on strings. -/
def strIn (sub hay : String) : Bool := isSub sub.data hay.data

/-! ## `difflib.SequenceMatcher(None, a, b)`

Model of CPython's `difflib`, as used by `AnswerSearcher.similarity`.
The `isjunk` parameter is `None` there, so the junk set `bjunk` is empty;
the autojunk "popular element" filter (active only when `len(b) >= 200`)
removes popular elements from `b2j` exactly as `__chain_b` does. -/

/-- Positions (ascending) of a character in `b` — the `b2j` entry before the
popularity purge. -/
def positionsOf (b : List Char) (c : Char) : List ℕ :=
  ((b.enum.filter (fun p => p.2 = c)).map Prod.fst)

/-- The autojunk "popular" test from `SequenceMatcher.__chain_b`:
with `n = len(b) >= 200`, elements occurring more than `n // 100 + 1`
times are purged from `b2j`. -/
def isPopular (b : List Char) (c : Char) : Bool :=
  200 ≤ b.length ∧ b.length / 100 + 1 < b.count c

/-- The `b2j` map after the popularity purge (the empty `bjunk` set purges
nothing). -/
def b2jGet (b : List Char) (c : Char) : List ℕ :=
  if isPopular b c then [] else positionsOf b c

/-- State of `find_longest_match`'s best-block tracking. -/
structure FlmBest where
  besti : ℕ
  bestj : ℕ
  bestsize : ℕ
  deriving DecidableEq, Repr

/-- `j2len` association list: `j ↦` length of the matching run ending at the
current `(i, j)`. -/
def j2lenGet (m : List (ℕ × ℕ)) (j : ℕ) : ℕ :=
  match m.find? (fun p => p.1 = j) with
  | some p => p.2
  | none => 0

/-- Inner loop of `find_longest_match`: for fixed row `i`, walk the ascending
position list `js = b2j[a[i]]`, skipping `j < blo`, breaking at `j >= bhi`,
building `newj2len` and updating the best block on strictly larger runs. -/
def flmInner (i blo bhi : ℕ) (prev : List (ℕ × ℕ)) :
    List ℕ → FlmBest → List (ℕ × ℕ) → FlmBest × List (ℕ × ℕ)
  | [], best, acc => (best, acc)
  | j :: rest, best, acc =>
    if j < blo then flmInner i blo bhi prev rest best acc
    else if bhi ≤ j then (best, acc)
    else
      let k := (if j = 0 then 0 else j2lenGet prev (j - 1)) + 1
      let acc' := (j, k) :: acc
      -- Python's `i-k+1` / `j-k+1`; written `i+1-k` so ℕ subtraction matches
      -- (always `k ≤ i+1` and `k ≤ j+1` since a run ending at a position is
      -- no longer than the prefix up to it).
      let best' := if best.bestsize < k then ⟨i + 1 - k, j + 1 - k, k⟩ else best
      flmInner i blo bhi prev rest best' acc'

/-- Outer loop of `find_longest_match` over rows `i ∈ [alo, ahi)`;
`fuel` starts at `ahi - alo`. -/
def flmLoop (a : List Char) (get : Char → List ℕ) (blo bhi : ℕ) :
    ℕ → ℕ → List (ℕ × ℕ) → FlmBest → FlmBest
  | 0, _, _, best => best
  | fuel + 1, i, prev, best =>
    let step := flmInner i blo bhi prev (get (a.getD i ' ')) best []
    flmLoop a get blo bhi fuel (i + 1) step.2 step.1

/-- One of the four extension `while` loops at the end of
`find_longest_match`: extend the best block leftwards while the character
before it on the `b` side has junk status `wantJunk` and the flanking
characters agree.  With `isjunk = None` the junk set is empty, so the
`wantJunk = true` loops never fire. -/
def flmExtLeft (a b : List Char) (junk : Char → Bool) (wantJunk : Bool)
    (alo blo : ℕ) : ℕ → FlmBest → FlmBest
  | 0, best => best
  | fuel + 1, best =>
    if alo < best.besti ∧ blo < best.bestj ∧
        junk (b.getD (best.bestj - 1) ' ') = wantJunk ∧
        a.getD (best.besti - 1) ' ' = b.getD (best.bestj - 1) ' ' then
      flmExtLeft a b junk wantJunk alo blo fuel
        ⟨best.besti - 1, best.bestj - 1, best.bestsize + 1⟩
    else best

/-- Rightward twin of `flmExtLeft`. -/
def flmExtRight (a b : List Char) (junk : Char → Bool) (wantJunk : Bool)
    (ahi bhi : ℕ) : ℕ → FlmBest → FlmBest
  | 0, best => best
  | fuel + 1, best =>
    if best.besti + best.bestsize < ahi ∧ best.bestj + best.bestsize < bhi ∧
        junk (b.getD (best.bestj + best.bestsize) ' ') = wantJunk ∧
        a.getD (best.besti + best.bestsize) ' ' =
          b.getD (best.bestj + best.bestsize) ' ' then
      flmExtRight a b junk wantJunk ahi bhi fuel
        ⟨best.besti, best.bestj, best.bestsize + 1⟩
    else best

/-- `find_longest_match(alo, ahi, blo, bhi)`: DP pass, then the non-junk
extension loops, then the junk extension loops (no-ops here since the junk
set is empty, kept for fidelity). -/
def findLongestMatch (a b : List Char) (junk : Char → Bool)
    (get : Char → List ℕ) (alo ahi blo bhi : ℕ) : FlmBest :=
  let b0 := flmLoop a get blo bhi (ahi - alo) alo [] ⟨alo, blo, 0⟩
  let b1 := flmExtLeft a b junk false alo blo b0.bestj b0
  let b2 := flmExtRight a b junk false ahi bhi (ahi - (b1.besti + b1.bestsize)) b1
  let b3 := flmExtLeft a b junk true alo blo b2.bestj b2
  flmExtRight a b junk true ahi bhi (ahi - (b3.besti + b3.bestsize)) b3

/-- Total size of the matching blocks of a region, as summed by
`get_matching_blocks` (the queue traversal order does not affect the sum,
so the recursion is written directly); `fuel` bounds the recursion depth. -/
def regionMatches (a b : List Char) (junk : Char → Bool)
    (get : Char → List ℕ) : ℕ → ℕ → ℕ → ℕ → ℕ → ℕ
  | 0, _, _, _, _ => 0
  | fuel + 1, alo, ahi, blo, bhi =>
    let B := findLongestMatch a b junk get alo ahi blo bhi
    if B.bestsize = 0 then 0
    else
      B.bestsize
      + (if alo < B.besti ∧ blo < B.bestj then
          regionMatches a b junk get fuel alo B.besti blo B.bestj else 0)
      + (if B.besti + B.bestsize < ahi ∧ B.bestj + B.bestsize < bhi then
          regionMatches a b junk get fuel
            (B.besti + B.bestsize) ahi (B.bestj + B.bestsize) bhi else 0)

/-- `SequenceMatcher(None, a, b).ratio()`:
`2 * matches / (len(a) + len(b))`, and `1.0` on two empty sequences. -/
def seqRatio (a b : List Char) : ℚ :=
  let m := regionMatches a b (fun _ => false) (b2jGet b)
    (a.length + b.length + 1) 0 a.length 0 b.length
  if a.length + b.length = 0 then 1
  else 2 * (m : ℚ) / ((a.length : ℚ) + (b.length : ℚ))

/-- `AnswerSearcher.similarity`: lowercase, strip, then the matcher ratio. -/
def similarity (str1 str2 : String) : ℚ :=
  seqRatio (pyStrip (pyLower str1)).data (pyStrip (pyLower str2)).data

/-! Helper notions for reasoning about the matcher (statement-side, not part
of the source): `njr b i` is the length of the maximal run of non-popular
characters of `b` ending at index `i`, `njrP` is its value at the previous
index, and `FlmValid` says a best block lies inside its region and matches
character for character. -/

def njr (b : List Char) : ℕ → ℕ
  | 0 => if isPopular b (b.getD 0 ' ') then 0 else 1
  | i + 1 => if isPopular b (b.getD (i + 1) ' ') then 0 else njr b i + 1

def njrP (b : List Char) : ℕ → ℕ
  | 0 => 0
  | i + 1 => njr b i

def FlmValid (a b : List Char) (alo ahi blo bhi : ℕ) (B : FlmBest) : Prop :=
  alo ≤ B.besti ∧ B.besti + B.bestsize ≤ ahi ∧ blo ≤ B.bestj ∧
    B.bestj + B.bestsize ≤ bhi ∧
    ∀ t < B.bestsize, a.getD (B.besti + t) ' ' = b.getD (B.bestj + t) ' '


/-! ## `AnswerSearcher`: keyword utilities and the four strategies -/

/-- `AnswerSearcher.keyword_overlap`: fraction of keywords found (as
case-insensitive substrings) in the text; `0` for an empty keyword list. -/
def keyword_overlap (text : String) (keywords : List String) : ℚ :=
  let found := keywords.countP (fun kw => isSub (pyLower kw).data (pyLower text).data)
  if keywords.isEmpty then 0 else (found : ℚ) / (keywords.length : ℚ)

/-- The stop-word set of `AnswerSearcher.extract_keywords`. -/
def stopWords : List String :=
  [("the"), ("a"), ("an"), ("is"), ("are"), ("was"), ("were"), ("be"),
   ("been"), ("being"), ("have"), ("has"), ("had"), ("do"), ("does"),
   ("did"), ("will"), ("would"), ("could"), ("should"), ("may"), ("might"),
   ("must"), ("shall"), ("can"), ("need"), ("dare"), ("ought"), ("used"),
   ("to"), ("of"), ("in"), ("for"), ("on"), ("with"), ("at"), ("by"),
   ("from"), ("as"), ("into"), ("through"), ("during"), ("before"),
   ("after"), ("above"), ("below"), ("between"), ("under"), ("again"),
   ("further"), ("then"), ("once"), ("and"), ("but"), ("or"), ("nor"),
   ("so"), ("yet"), ("both"), ("either"), ("neither"), ("not"), ("only"),
   ("own"), ("same"), ("than"), ("too"), ("very"), ("just"), ("also"),
   ("now"), ("it"), ("its"), ("this"), ("that"), ("these"), ("those"),
   ("what"), ("which"), ("who"), ("whom"), ("whose")]

/-- Python's `\w` class (ASCII inputs): letters, digits, underscore. -/
def isWordChar (c : Char) : Bool := c.isAlphanum || c = '_'

/-- Maximal `\w`-runs of a character list, in order. -/
def wordRuns : List Char → List (List Char)
  | [] => []
  | c :: rest =>
    if isWordChar c then
      (c :: rest.takeWhile isWordChar) :: wordRuns (rest.dropWhile isWordChar)
    else wordRuns rest
termination_by l => l.length
decreasing_by
  · have key : ∀ l : List Char, (l.dropWhile isWordChar).length ≤ l.length := by
      intro l
      induction l with
      | nil => simp
      | cons x xs ih =>
        by_cases h : isWordChar x
        · simp [List.dropWhile, h]; omega
        · simp [List.dropWhile, h]
    simp only [List.length_cons]
    exact Nat.lt_succ_of_le (key rest)
  · simp [Nat.lt_succ_self]

/-- `re.findall(r'\b[a-zA-Z]{3,}\b', text.lower())`: the maximal `\w`-runs
that consist purely of letters and have length at least 3 (a run containing
a digit or underscore has no word boundary inside it, so it yields no
match). -/
def alphaTokens (text : String) : List String :=
  ((wordRuns (pyLower text).data).filter
    (fun r => r.all Char.isAlpha && 3 ≤ r.length)).map String.mk

/-- `AnswerSearcher.extract_keywords`: tokens minus stop words, made unique
via `list(set(...))`.  CPython's set iteration order is unspecified
(hash-seed dependent); only membership and cardinality of the result are
used downstream, and `List.dedup` preserves both. -/
def extract_keywords (text : String) : List String :=
  ((alphaTokens text).filter (fun w => ¬ stopWords.contains w)).dedup

/-- Common body of the four search `while` loops in `AnswerSearcher`:
visit candidates in the given order, keep the strictly better best-so-far,
count one node per visit, and stop as soon as similarity reaches `thr`.
`bfs_search`, `dfs_search`, `astar_search` and `greedy_search` are this
loop over their respective visit orders and thresholds. -/
def searchVisit (student : String) (thr : ℚ) :
    List String → Option String → ℚ → ℕ → Option String × ℚ × ℕ
  | [], best, score, n => (best, score, n)
  | c :: rest, best, score, n =>
    let s := similarity student c
    let best' := if score < s then some c else best
    let score' := if score < s then s else score
    if thr ≤ s then (best', score', n + 1)
    else searchVisit student thr rest best' score' (n + 1)

/-- `AnswerSearcher.bfs_search`: queue = bank order, threshold `0.95`. -/
def bfs_search (student : String) (bank : List String) :
    Option String × ℚ × ℕ :=
  searchVisit student (19/20) bank none 0 0

/-- `AnswerSearcher.dfs_search`: stack = reversed bank order, threshold
`0.9`. -/
def dfs_search (student : String) (bank : List String) :
    Option String × ℚ × ℕ :=
  searchVisit student (9/10) bank.reverse none 0 0

/-- Order of `heapq` pops for tuples `(f_score, answer, 0)` pushed before
any pop: ascending lexicographic on `(f_score, answer)`, i.e. descending
heuristic and, on ties, ascending Python string comparison. -/
def astarLE (x y : ℚ × String) : Bool :=
  x.1 < y.1 || (x.1 = y.1 && decide (x.2 ≤ y.2))

/-- The visit order of `astar_search`: all candidates pushed with
`f = -h_score`, then popped in heap order. -/
def astarOrder (student : String) (bank : List String)
    (keywords : Option (List String)) : List String :=
  let kws := match keywords with
    | some k => k
    | none => extract_keywords student
  ((bank.map (fun ansr => (-(keyword_overlap ansr kws), ansr))).mergeSort
    astarLE).map Prod.snd

/-- `AnswerSearcher.astar_search`: heap-ordered visit loop, threshold
`0.85`; the returned path lists the visited candidates truncated to 50
characters. -/
def astar_search (student : String) (bank : List String)
    (keywords : Option (List String)) :
    Option String × ℚ × ℕ × List String :=
  let ord := astarOrder student bank keywords
  let r := searchVisit student (17/20) ord none 0 0
  (r.1, r.2.1, r.2.2, (ord.take r.2.2).map (fun c => c.take 50 ++ ("...")))

/-- Order produced by `scored_answers.sort(reverse=True)` on pairs
`(h_score, answer)`: descending lexicographic (ties in `h_score` break by
descending string comparison; fully equal pairs keep list order, which
`mergeSort`'s stability also preserves). -/
def greedyLE (x y : ℚ × String) : Bool :=
  y.1 < x.1 || (x.1 = y.1 && decide (y.2 ≤ x.2))

/-- The visit order of `greedy_search`. -/
def greedyOrder (student : String) (bank : List String)
    (keywords : Option (List String)) : List String :=
  let kws := match keywords with
    | some k => k
    | none => extract_keywords student
  ((bank.map (fun ansr => (keyword_overlap ansr kws, ansr))).mergeSort
    greedyLE).map Prod.snd

/-- `AnswerSearcher.greedy_search`: descending-heuristic visit loop,
threshold `0.7`. -/
def greedy_search (student : String) (bank : List String)
    (keywords : Option (List String)) : Option String × ℚ × ℕ :=
  searchVisit student (7/10) (greedyOrder student bank keywords) none 0 0

/-- Result dictionary of `AnswerSearcher.search`. -/
structure SearchResult where
  best_match : Option String
  similarity_score : ℚ
  nodes_explored : ℕ
  algorithm : String
  search_path : Option (List String)
  deriving Repr

/-- `AnswerSearcher.search`: dispatch on the algorithm name, defaulting to
A* search. -/
def search (student_answer : String) (answer_bank : List String)
    (algorithm : String) (keywords : Option (List String)) : SearchResult :=
  if algorithm = ("BFS") then
    let r := bfs_search student_answer answer_bank
    ⟨r.1, r.2.1, r.2.2, algorithm, none⟩
  else if algorithm = ("DFS") then
    let r := dfs_search student_answer answer_bank
    ⟨r.1, r.2.1, r.2.2, algorithm, none⟩
  else if algorithm = ("Greedy") then
    let r := greedy_search student_answer answer_bank keywords
    ⟨r.1, r.2.1, r.2.2, algorithm, none⟩
  else
    let r := astar_search student_answer answer_bank keywords
    ⟨r.1, r.2.1, r.2.2.1, algorithm, some r.2.2.2⟩

/-! ## `ConfidenceScorer` (Bayesian evidence fusion) -/

/-- `ConfidenceScorer.categorize_score`. -/
def categorize_score (score : ℚ) : String :=
  if 7/10 ≤ score then ("high")
  else if 2/5 ≤ score then ("medium")
  else ("low")

/-- CPT `cpt_keyword_match`, as `(P(e|correct), P(e|incorrect))`; only the
three category strings occur. -/
def cpt_keyword_match (cat : String) : ℚ × ℚ :=
  if cat = ("high") then (9/10, 3/10)
  else if cat = ("medium") then (3/5, 1/2)
  else (1/5, 7/10)

/-- CPT `cpt_similarity`. -/
def cpt_similarity (cat : String) : ℚ × ℚ :=
  if cat = ("high") then (19/20, 1/10)
  else if cat = ("medium") then (3/5, 2/5)
  else (1/10, 4/5)

/-- CPT `cpt_length_appropriate`. -/
def cpt_length_appropriate (b : Bool) : ℚ × ℚ :=
  if b then (4/5, 2/5) else (3/10, 3/5)

/-- `ConfidenceScorer.bayesian_update`: one Bayes step, passing the prior
through unchanged on zero evidence mass. -/
def bayesian_update (prior likC likI : ℚ) : ℚ :=
  let pEvidence := likC * prior + likI * (1 - prior)
  if pEvidence = 0 then prior else likC * prior / pEvidence

/-- `ConfidenceScorer.interpret_confidence`. -/
def interpret_confidence (confidence : ℚ) : String :=
  if 9/10 ≤ confidence then ("Very High - Almost certainly correct")
  else if 3/4 ≤ confidence then ("High - Likely correct")
  else if 1/2 ≤ confidence then ("Medium - Possibly correct, needs review")
  else if 1/4 ≤ confidence then ("Low - Likely incorrect")
  else ("Very Low - Almost certainly incorrect")

/-- Result dictionary of `ConfidenceScorer.calculate_confidence`. -/
structure ConfidenceResult where
  confidence : ℚ
  keyword_evidence : String
  similarity_evidence : String
  length_appropriate : Bool
  interpretation : String
  deriving Repr

/-- `ConfidenceScorer.calculate_confidence`: prior `0.5`, then sequential
Bayes updates on the keyword category, the similarity category and the
length flag. -/
def calculate_confidence (keyword_score similarity_score : ℚ)
    (length_appropriate : Bool) : ConfidenceResult :=
  let kwCat := categorize_score keyword_score
  let p1 := bayesian_update (1/2) (cpt_keyword_match kwCat).1
    (cpt_keyword_match kwCat).2
  let simCat := categorize_score similarity_score
  let p2 := bayesian_update p1 (cpt_similarity simCat).1
    (cpt_similarity simCat).2
  let p3 := bayesian_update p2 (cpt_length_appropriate length_appropriate).1
    (cpt_length_appropriate length_appropriate).2
  ⟨p3, kwCat, simCat, length_appropriate, interpret_confidence p3⟩

/-- Result dictionary of `ConfidenceScorer.calculate_partial_marks`. -/
structure PartialMarksResult where
  marks : ℚ
  max_marks : ℚ
  percentage : ℚ
  confidence : ℚ
  keyword_contribution : ℚ
  similarity_contribution : ℚ
  completeness_contribution : ℚ
  steps_bonus : ℚ
  interpretation : String
  deriving Repr

/-- `ConfidenceScorer.calculate_partial_marks`: confidence-scaled base
marks, a completeness factor in `[0.7, 1.0]`, a capped 10% steps bonus,
then rounding to the nearest 0.5 and clamping to `[0, max_marks]`. -/
def calculate_partial_marks (max_marks keyword_score similarity_score
    completeness : ℚ) (has_steps : Bool) : PartialMarksResult :=
  let length_ok := 3/10 < completeness
  let conf := calculate_confidence keyword_score similarity_score length_ok
  let base_marks := max_marks * conf.confidence
  let completeness_factor := 7/10 + 3/10 * completeness
  let adjusted0 := base_marks * completeness_factor
  let adjusted := if has_steps ∧ 1/2 < conf.confidence then
      min max_marks (adjusted0 * (11/10))
    else adjusted0
  let final0 : ℚ := (roundEven (adjusted * 2) : ℚ) / 2
  let final_marks := max 0 (min max_marks final0)
  ⟨final_marks, max_marks,
    (if max_marks > 0 then final_marks / max_marks * 100 else 0),
    conf.confidence,
    keyword_score * 3/10, similarity_score * 2/5, completeness * 1/5,
    (if has_steps then 1/10 else 0),
    conf.interpretation⟩

/-! ## `RubricCSP` (constraint-based rubric allocation) -/

/-- The rubric component assignment dictionary (fixed four keys). -/
structure RubricAssignment where
  content_score : ℚ
  accuracy_score : ℚ
  completeness_score : ℚ
  presentation_score : ℚ
  deriving DecidableEq, Repr

/-- `sum(assignment.values())`. -/
def rubricTotal (a : RubricAssignment) : ℚ :=
  a.content_score + a.accuracy_score + a.completeness_score +
    a.presentation_score

/-- Evidence dictionary consumed by `RubricCSP.backtracking_grade` (the
grader always supplies all four keys; the `.get` defaults are 0.5, 0.5,
True, False). -/
structure RubricEvidence where
  keyword_match : ℚ
  similarity : ℚ
  length_appropriate : Bool
  has_steps : Bool
  deriving Repr

/-- `check_constraint(..., 'total_max', max_marks=M)`. -/
def constraint_total_max (a : RubricAssignment) (max_marks : ℚ) : Prop :=
  rubricTotal a ≤ max_marks

/-- `check_constraint(..., 'minimum')`. -/
def constraint_minimum (a : RubricAssignment) : Prop :=
  0 ≤ a.content_score ∧ 0 ≤ a.accuracy_score ∧
    0 ≤ a.completeness_score ∧ 0 ≤ a.presentation_score

/-- `check_constraint(..., 'dependency', max_content=mc)`: zero accuracy
caps content at half of `mc`. -/
def constraint_dependency (a : RubricAssignment) (max_content : ℚ) : Prop :=
  a.accuracy_score = 0 → a.content_score ≤ max_content * (1/2)

/-- `check_constraint(..., 'consistency', max_accuracy=ma)`: accuracy at
80% of its maximum demands content at least 1. -/
def constraint_consistency (a : RubricAssignment) (max_accuracy : ℚ) : Prop :=
  max_accuracy * (4/5) ≤ a.accuracy_score → 1 ≤ a.content_score

instance (a : RubricAssignment) (m : ℚ) :
    Decidable (constraint_total_max a m) := by
  unfold constraint_total_max; infer_instance

instance (a : RubricAssignment) : Decidable (constraint_minimum a) := by
  unfold constraint_minimum; infer_instance

instance (a : RubricAssignment) (m : ℚ) :
    Decidable (constraint_dependency a m) := by
  unfold constraint_dependency; infer_instance

instance (a : RubricAssignment) (m : ℚ) :
    Decidable (constraint_consistency a m) := by
  unfold constraint_consistency; infer_instance

/-- `RubricCSP.is_consistent`: all four constraints with the parameters
used there (`max_content` and `max_accuracy` are both `max_marks * 0.4`). -/
def is_consistent (a : RubricAssignment) (max_marks : ℚ) : Prop :=
  constraint_total_max a max_marks ∧ constraint_minimum a ∧
    constraint_dependency a (max_marks * (2/5)) ∧
    constraint_consistency a (max_marks * (2/5))

instance (a : RubricAssignment) (m : ℚ) : Decidable (is_consistent a m) := by
  unfold is_consistent; infer_instance

/-- First half of the `_backtrack_adjust` `while` body: proportional shrink
(with re-rounding to one decimal) when the total exceeds `max_marks`. -/
def scaleStep (a : RubricAssignment) (max_marks : ℚ) : RubricAssignment :=
  if max_marks < rubricTotal a then
    let factor := max_marks / rubricTotal a
    (⟨pyRound1 (a.content_score * factor), pyRound1 (a.accuracy_score * factor),
      pyRound1 (a.completeness_score * factor),
      pyRound1 (a.presentation_score * factor)⟩ : RubricAssignment)
  else a

/-- Second half of the `_backtrack_adjust` `while` body: when accuracy is
zero, clamp content down to `max_marks * 0.35 * 0.5`. -/
def clampStep (a1 : RubricAssignment) (max_marks : ℚ) : RubricAssignment :=
  if a1.accuracy_score = 0 ∧
      max_marks * (35/100) * (1/2) < a1.content_score then
    { a1 with content_score := max_marks * (35/100) * (1/2) }
  else a1

/-- One iteration of the `_backtrack_adjust` `while` body. -/
def backtrackStep (a : RubricAssignment) (max_marks : ℚ) : RubricAssignment :=
  clampStep (scaleStep a max_marks) max_marks

/-- The `while not consistent and iteration < 100` loop of
`_backtrack_adjust`, with the remaining iteration budget as fuel. -/
def backtrackLoop (max_marks : ℚ) : ℕ → RubricAssignment → RubricAssignment
  | 0, a => a
  | fuel + 1, a =>
    if is_consistent a max_marks then a
    else backtrackLoop max_marks fuel (backtrackStep a max_marks)

/-- `RubricCSP._backtrack_adjust` (`max_iterations = 100`). -/
def backtrack_adjust (a : RubricAssignment) (max_marks : ℚ) :
    RubricAssignment :=
  backtrackLoop max_marks 100 a

/-- `RubricCSP.backtracking_grade`: evidence-proportional initial
allocation under the component weights (content 0.35, accuracy 0.40,
completeness 0.15, presentation 0.10), each rounded to one decimal, then
the repair loop. -/
def backtracking_grade (evidence : RubricEvidence) (max_marks : ℚ) :
    RubricAssignment :=
  let initial : RubricAssignment :=
    ⟨pyRound1 (evidence.keyword_match * (max_marks * (35/100))),
     pyRound1 (evidence.similarity * (max_marks * (2/5))),
     pyRound1 ((if evidence.length_appropriate then 1 else 1/2) *
       (max_marks * (15/100))),
     pyRound1 ((if evidence.has_steps then 1 else 1/2) *
       (max_marks * (1/10)))⟩
  backtrack_adjust initial max_marks

/-! ## `QuestionBank` (the reference bank and its lookup) -/

/-- One value of the `QuestionBank.questions` dict. -/
structure QEntry where
  correct_answers : List String
  keywords : List String
  max_marks : ℚ
  qtype : String
  deriving DecidableEq, Repr

/-- `QuestionBank.load_default_questions`, as an association list in the
dict's insertion order. -/
def question_bank : List (String × QEntry) :=
  [(("what is artificial intelligence"),
    ⟨[("Artificial Intelligence is the simulation of human intelligence processes by machines, especially computer systems"),
      ("AI is the ability of machines to perform tasks that typically require human intelligence"),
      ("AI refers to systems that can perform tasks requiring human intelligence such as learning, reasoning, and problem-solving"),
      ("The simulation of human intelligence in machines programmed to think like humans")],
     [("artificial"), ("intelligence"), ("machines"), ("human"),
      ("simulation"), ("learning"), ("reasoning")], 5, ("definition")⟩),
   (("what is bfs"),
    ⟨[("BFS (Breadth First Search) is a graph traversal algorithm that explores all neighbors at the current depth before moving to nodes at the next depth level"),
      ("Breadth First Search explores nodes level by level, visiting all neighbors before going deeper"),
      ("BFS uses a queue to explore all nodes at current depth before moving to next level")],
     [("breadth"), ("first"), ("search"), ("graph"), ("traversal"),
      ("queue"), ("level"), ("neighbors")], 5, ("definition")⟩),
   (("what is dfs"),
    ⟨[("DFS (Depth First Search) is a graph traversal algorithm that explores as far as possible along each branch before backtracking"),
      ("Depth First Search uses a stack to explore deeply into each path before backtracking"),
      ("DFS goes deep into one branch before exploring siblings")],
     [("depth"), ("first"), ("search"), ("graph"), ("traversal"),
      ("stack"), ("backtrack"), ("branch")], 5, ("definition")⟩),
   (("what is a* search"),
    ⟨[("A* is a best-first search algorithm that uses heuristics to find the optimal path by minimizing f(n) = g(n) + h(n)"),
      ("A* search combines path cost g(n) with heuristic estimate h(n) to find optimal solutions"),
      ("A star is an informed search algorithm that uses evaluation function f(n) = g(n) + h(n)")],
     [("a*"), ("astar"), ("heuristic"), ("optimal"), ("path"),
      ("g(n)"), ("h(n)"), ("f(n)"), ("best-first")], 5, ("definition")⟩),
   (("what is heuristic"),
    ⟨[("A heuristic is a function that estimates the cost from the current state to the goal state"),
      ("Heuristic provides an estimate of how close a state is to the goal"),
      ("A heuristic function guides search by estimating remaining cost to reach goal")],
     [("heuristic"), ("estimate"), ("cost"), ("goal"), ("function"),
      ("guide")], 4, ("definition")⟩),
   (("what is constraint satisfaction problem"),
    ⟨[("CSP consists of variables, domains, and constraints that must all be satisfied"),
      ("A constraint satisfaction problem has variables with domains and constraints that define valid assignments"),
      ("CSP is a problem where we must assign values to variables from their domains while satisfying all constraints")],
     [("constraint"), ("satisfaction"), ("variables"), ("domains"),
      ("constraints"), ("assignment")], 5, ("definition")⟩),
   (("what is bayesian inference"),
    ⟨[("Bayesian inference uses Bayes theorem to update the probability of a hypothesis based on evidence"),
      ("Bayesian inference calculates posterior probability from prior probability and likelihood using Bayes rule"),
      ("A method of statistical inference that uses Bayes theorem to update probabilities based on new data")],
     [("bayesian"), ("bayes"), ("probability"), ("hypothesis"),
      ("evidence"), ("posterior"), ("prior"), ("likelihood")], 5,
     ("definition")⟩),
   (("what is markov decision process"),
    ⟨[("MDP is a mathematical framework for modeling decision-making with states, actions, transition probabilities, and rewards"),
      ("Markov Decision Process has states S, actions A, transition function T, and reward function R"),
      ("MDP models sequential decision-making under uncertainty with Markov property")],
     [("markov"), ("decision"), ("process"), ("states"), ("actions"),
      ("transitions"), ("rewards"), ("mdp")], 5, ("definition")⟩),
   (("what is q-learning"),
    ⟨[("Q-learning is a model-free reinforcement learning algorithm that learns action values for state-action pairs"),
      ("Q-learning learns optimal policy by updating Q-values using Q(s,a) = Q(s,a) + α(r + γ max Q(s',a') - Q(s,a))"),
      ("A reinforcement learning algorithm that learns Q-values without needing a model of the environment")],
     [("q-learning"), ("reinforcement"), ("learning"), ("q-value"),
      ("policy"), ("model-free"), ("action")], 5, ("definition")⟩),
   (("what is reinforcement learning"),
    ⟨[("Reinforcement learning is a type of machine learning where an agent learns by interacting with environment and receiving rewards"),
      ("RL is learning through trial and error with rewards and penalties"),
      ("Agent learns optimal behavior through actions, states, and reward signals")],
     [("reinforcement"), ("learning"), ("agent"), ("environment"),
      ("rewards"), ("actions"), ("states")], 5, ("definition")⟩),
   (("calculate 15 + 27"),
    ⟨[("42"), ("forty-two"), ("forty two"), ("= 42"), ("is 42")],
     [("42")], 2, ("math")⟩),
   (("calculate 25 + 17"),
    ⟨[("42"), ("forty-two"), ("forty two"), ("= 42")],
     [("42")], 2, ("math")⟩),
   (("15 27"),
    ⟨[("42"), ("forty-two"), ("forty two")], [("42")], 2, ("math")⟩),
   (("2+2"),
    ⟨[("4"), ("four")], [("4")], 2, ("math")⟩),
   (("2x 3 11 find x"),
    ⟨[("x=4"), ("x = 4"), ("4"), ("x is 4")], [("4"), ("x")], 3,
     ("math")⟩),
   (("2x+3=11"),
    ⟨[("x=4"), ("x = 4"), ("4")], [("x"), ("4")], 3, ("math")⟩),
   (("2x+5=15"),
    ⟨[("x=5"), ("x = 5"), ("5")], [("x"), ("5")], 3, ("math")⟩),
   (("capital of france"),
    ⟨[("Paris"), ("paris")], [("paris")], 2, ("factual")⟩),
   (("capital of india"),
    ⟨[("New Delhi"), ("Delhi"), ("new delhi")],
     [("delhi"), ("new delhi")], 2, ("factual")⟩),
   (("types of search algorithms"),
    ⟨[("Uninformed search (BFS, DFS) and Informed search (A*, Greedy)"),
      ("Blind search like BFS DFS and heuristic search like A* and Greedy Best First"),
      ("Search algorithms include BFS, DFS, A*, Greedy, and Iterative Deepening")],
     [("bfs"), ("dfs"), ("a*"), ("greedy"), ("uninformed"),
      ("informed"), ("heuristic")], 5, ("list")⟩)]

/-- The filler words removed by `find_question`'s first `re.sub`. -/
def fillerWords : List String :=
  [("what"), ("is"), ("are"), ("the"), ("define"), ("explain"),
   ("describe"), ("a"), ("an")]

/-- `re.sub(r'\b(what|is|...|an)\b', '', s)`: with `\b` on both sides and
purely alphabetic alternatives, the matches are exactly the maximal
`\w`-runs equal to a filler word; those runs are deleted, everything else
is kept. -/
def removeFillerRuns : List Char → List Char
  | [] => []
  | c :: rest =>
    if isWordChar c then
      let run := c :: rest.takeWhile isWordChar
      let tail := rest.dropWhile isWordChar
      if fillerWords.contains (String.mk run) then removeFillerRuns tail
      else run ++ removeFillerRuns tail
    else c :: removeFillerRuns rest
termination_by l => l.length
decreasing_by
  all_goals
    try (have key : ∀ l : List Char, (l.dropWhile isWordChar).length ≤ l.length := by
          intro l
          induction l with
          | nil => simp
          | cons x xs ih =>
            by_cases h : isWordChar x
            · simp [List.dropWhile, h]; omega
            · simp [List.dropWhile, h]
         simp only [List.length_cons]
         exact Nat.lt_succ_of_le (key rest))
  simp [Nat.lt_succ_self]

/-- `re.sub(r'[^\w\s]', ' ', s)`. -/
def punctToSpace (l : List Char) : List Char :=
  l.map (fun c => if isWordChar c || isPySpace c then c else ' ')

/-- `re.sub(r'\s+', ' ', s)`: collapse whitespace runs to single spaces. -/
def collapseWS : List Char → List Char
  | [] => []
  | c :: rest =>
    if isPySpace c then ' ' :: collapseWS (rest.dropWhile isPySpace)
    else c :: collapseWS rest
termination_by l => l.length
decreasing_by
  · have key : ∀ l : List Char, (l.dropWhile isPySpace).length ≤ l.length := by
      intro l
      induction l with
      | nil => simp
      | cons x xs ih =>
        by_cases h : isPySpace x
        · simp [List.dropWhile, h]; omega
        · simp [List.dropWhile, h]
    simp only [List.length_cons]
    exact Nat.lt_succ_of_le (key rest)
  · simp [Nat.lt_succ_self]

/-- The cleaned question text `clean_q` of `find_question`: filler words
removed, non-word punctuation spaced, stripped, whitespace collapsed
(applied to the lowercased question). -/
def cleanQuestion (question_lower : String) : String :=
  String.mk (collapseWS (pyStripL (punctToSpace
    (removeFillerRuns question_lower.data))))

/-- Anchored match of `(\d+)\s*[\+\-\*\/]\s*(\d+)`: the greedy digit and
whitespace runs never need backtracking here because the following required
character class excludes them. -/
def arithAt (l : List Char) : Option (List Char × List Char) :=
  let d1 := l.takeWhile Char.isDigit
  if d1.isEmpty then none
  else
    match (l.dropWhile Char.isDigit).dropWhile isPySpace with
    | [] => none
    | op :: rest =>
      if op = '+' ∨ op = '-' ∨ op = '*' ∨ op = '/' then
        let d2 := (rest.dropWhile isPySpace).takeWhile Char.isDigit
        if d2.isEmpty then none else some (d1, d2)
      else none

/-- `re.search` for the arithmetic pattern: leftmost anchored match. -/
def arithSearch : List Char → Option (List Char × List Char)
  | [] => none
  | c :: rest =>
    match arithAt (c :: rest) with
    | some r => some r
    | none => arithSearch rest

/-- Anchored match of `(\d+)x\s*[\+\-]\s*(\d+)\s*=\s*(\d+)`. -/
def eqAt (l : List Char) : Option (List Char × List Char × List Char) :=
  let d1 := l.takeWhile Char.isDigit
  if d1.isEmpty then none
  else
    match l.dropWhile Char.isDigit with
    | [] => none
    | x :: rest1 =>
      if x = 'x' then
        match rest1.dropWhile isPySpace with
        | [] => none
        | op :: rest2 =>
          if op = '+' ∨ op = '-' then
            let r3 := rest2.dropWhile isPySpace
            let d2 := r3.takeWhile Char.isDigit
            if d2.isEmpty then none
            else
              match (r3.dropWhile Char.isDigit).dropWhile isPySpace with
              | [] => none
              | eqc :: rest4 =>
                if eqc = '=' then
                  let d3 := (rest4.dropWhile isPySpace).takeWhile Char.isDigit
                  if d3.isEmpty then none else some (d1, d2, d3)
                else none
          else none
      else none

/-- `re.search` for the equation pattern. -/
def eqSearch : List Char → Option (List Char × List Char × List Char)
  | [] => none
  | c :: rest =>
    match eqAt (c :: rest) with
    | some r => some r
    | none => eqSearch rest

/-- `str.split()` (no argument): maximal non-whitespace runs. -/
def splitWS : List Char → List (List Char)
  | [] => []
  | c :: rest =>
    if isPySpace c then splitWS rest
    else (c :: rest.takeWhile (fun x => !isPySpace x)) ::
      splitWS (rest.dropWhile (fun x => !isPySpace x))
termination_by l => l.length
decreasing_by
  · simp [Nat.lt_succ_self]
  · have key : ∀ l : List Char,
        (l.dropWhile (fun x => !isPySpace x)).length ≤ l.length := by
      intro l
      induction l with
      | nil => simp
      | cons x xs ih =>
        by_cases h : isPySpace x
        · simp [List.dropWhile, h]
        · simp [List.dropWhile, h]; omega
    simp only [List.length_cons]
    exact Nat.lt_succ_of_le (key rest)

/-- The 50%-keyword-overlap test of `find_question`'s final loop:
`len(set(key.split()) & set(clean_q.split())) >= len(set(key.split())) * 0.5`. -/
def keywordLookupHit (key clean_q : String) : Bool :=
  let key_words := ((splitWS key.data).map String.mk).dedup
  let question_words := ((splitWS clean_q.data).map String.mk).dedup
  let overlap := (key_words.filter (fun w => question_words.contains w)).length
  (key_words.length : ℚ) * (1/2) ≤ (overlap : ℚ)

/-- The numeric-pattern loop of `find_question`: if the arithmetic regex
matches, return the first bank key containing both operand digit strings as
substrings. -/
def calcLookup (question_text : String) : Option (String × QEntry) :=
  match arithSearch question_text.data with
  | some (g1, g2) =>
    question_bank.find? (fun (kv : String × QEntry) =>
      isSub g1 kv.1.data && isSub g2 kv.1.data)
  | none => none

/-- The equation-pattern loop of `find_question` (on the space-stripped
text): first bank key containing the leading coefficient and the right-hand
side as substrings. -/
def eqLookup (question_text : String) : Option (String × QEntry) :=
  match eqSearch (question_text.data.filter (fun c => c ≠ ' ')) with
  | some (g1, _, g3) =>
    question_bank.find? (fun (kv : String × QEntry) =>
      isSub g1 kv.1.data && isSub g3 kv.1.data)
  | none => none

/-- The exact-match loop of `find_question`: first key that contains or is
contained in the cleaned question. -/
def textLookup (clean_q : String) : Option (String × QEntry) :=
  question_bank.find? (fun (kv : String × QEntry) =>
    isSub kv.1.data clean_q.data || isSub clean_q.data kv.1.data)

/-- The 50%-keyword-overlap loop of `find_question`. -/
def keywordLookup (clean_q : String) : Option (String × QEntry) :=
  question_bank.find? (fun (kv : String × QEntry) => keywordLookupHit kv.1 clean_q)

/-- `QuestionBank.find_question`: numeric-pattern lookup, then
equation-pattern lookup, then substring match in either direction against
`clean_q`, then the 50% keyword-overlap loop.  Each loop returns the first
key in bank order; an exhausted final loop yields `None`. -/
def find_question (question_text : String) : Option QEntry :=
  let clean_q := cleanQuestion (pyLower question_text)
  match calcLookup question_text with
  | some kv => some kv.2
  | none =>
    match eqLookup question_text with
    | some kv => some kv.2
    | none =>
      match textLookup clean_q with
      | some kv => some kv.2
      | none => (keywordLookup clean_q).map Prod.snd

/-! ## `ExamGrader`: per-question grading -/

/-- The per-question result dictionary built by `grade_single_answer` /
`grade_generic` (the orchestration metadata `question_number`,
`question_text`, `student_answer` added later by `grade` is bookkeeping and
not modelled). -/
structure GradeResult where
  status : String
  icon : String
  marks : ℚ
  max_marks : ℚ
  similarity : ℚ
  keyword_score : ℚ
  confidence : ℚ
  algorithm : String
  nodes_explored : ℕ
  best_match : Option String
  feedback : String
  deriving Repr

/-- `ExamGrader.generate_feedback`.  Note `if correct_answer:` is Python
truthiness, so an empty-string best match also takes the generic branch. -/
def generate_feedback (student_answer : String) (correct_answer : Option String)
    (keywords : List String) (status : String) : String :=
  if status = ("correct") then ("Excellent! Your answer is correct.")
  else if status = ("partial") then
    let missing := keywords.filter
      (fun kw => ¬ isSub (pyLower kw).data (pyLower student_answer).data)
    if missing.isEmpty then ("Good answer but could be more complete.")
    else ("Good attempt! Consider including: ") ++
      String.intercalate (", ") (missing.take 3)
  else
    match correct_answer with
    | some c =>
      if c = ("") then ("Incorrect. Please review the concept.")
      else ("Incorrect. Expected answer: ") ++ c.take 100 ++ ("...")
    | none => ("Incorrect. Please review the concept.")

/-- Python's `f"{q:.0%}"` on an exact value: percent with zero decimals,
banker's rounding. -/
def formatPercent (q : ℚ) : String := toString (roundEven (100 * q)) ++ ("%")

/-- `ExamGrader.grade_generic`: evidence is keyword overlap against
keywords extracted from the question plus answer length; marks are
`round(5 * confidence, 1)` with thresholds 4 / 2.5. -/
def grade_generic (question student_answer algorithm : String) : GradeResult :=
  let keywords := extract_keywords question
  let keyword_score := keyword_overlap student_answer keywords
  let length_score := min 1 ((student_answer.length : ℚ) / 50)
  let conf := calculate_confidence keyword_score length_score
    (10 < student_answer.length)
  let max_marks : ℚ := 5
  let marks := pyRound1 (max_marks * conf.confidence)
  let st : String × String :=
    if 4 ≤ marks then (("correct"), ("✅"))
    else if 5/2 ≤ marks then (("partial"), ("⚠️"))
    else (("incorrect"), ("❌"))
  ⟨st.1, st.2, marks, max_marks, keyword_score, keyword_score,
    conf.confidence, algorithm, keywords.length, none,
    ("Generic grading applied. Keywords found: ") ++
      formatPercent keyword_score⟩

/-- `ExamGrader.grade_single_answer`: bank lookup, search-engine
similarity, keyword overlap, Bayesian partial marks, thresholds 90% / 50%
of `max_marks`. -/
def grade_single_answer (question student_answer algorithm : String) :
    GradeResult :=
  match find_question question with
  | none => grade_generic question student_answer algorithm
  | some q_data =>
    let sr := search student_answer q_data.correct_answers algorithm
      (some q_data.keywords)
    let keyword_score := keyword_overlap student_answer q_data.keywords
    let mr := calculate_partial_marks q_data.max_marks keyword_score
      sr.similarity_score (min 1 ((student_answer.length : ℚ) / 100))
      (q_data.qtype = ("math"))
    let st : String × String :=
      if q_data.max_marks * (9/10) ≤ mr.marks then (("correct"), ("✅"))
      else if q_data.max_marks * (1/2) ≤ mr.marks then (("partial"), ("⚠️"))
      else (("incorrect"), ("❌"))
    ⟨st.1, st.2, mr.marks, q_data.max_marks, sr.similarity_score,
      keyword_score, mr.confidence, algorithm, sr.nodes_explored,
      sr.best_match,
      generate_feedback student_answer sr.best_match q_data.keywords st.1⟩

/-! ## `ExamGrader.parse_questions_answers`

The primary pattern is
`Q\d*[\.:]\s*(.*?)\n\s*A[\.:]\s*(.*?)(?=Q\d*[\.:]\s*|$)` with
`re.IGNORECASE | re.DOTALL`, scanned by `re.findall`.  The matcher below is
a direct backtracking implementation of that pattern: greedy `\s*` and
`\d*` with backtracking (the digit star never profitably backtracks because
the following class excludes digits), lazy `.*?` (DOTALL, so it crosses
newlines), and the zero-width lookahead whose `$` accepts the end of the
string or the position before a final newline. -/

def isQChar (c : Char) : Bool := c = 'Q' ∨ c = 'q'

def isAChar (c : Char) : Bool := c = 'A' ∨ c = 'a'

def isDotColon (c : Char) : Bool := c = '.' ∨ c = ':'

/-- First index at or after `i` whose character is not a digit. -/
def skipDigits (s : List Char) (i : ℕ) : ℕ :=
  i + ((s.drop i).takeWhile Char.isDigit).length

/-- Greedy `\s*` with backtracking: try the longest tail first, then hand
shorter ones to the continuation. -/
def starWS (s : List Char) (k : ℕ → Option α) : ℕ → ℕ → Option α
  | 0, i => k i
  | fuel + 1, i =>
    if i < s.length ∧ isPySpace (s.getD i ' ') then
      match starWS s k fuel (i + 1) with
      | some r => some r
      | none => k i
    else k i

/-- Lazy `.*?` under DOTALL: try the shortest extent first. -/
def starAnyLazy (s : List Char) (k : ℕ → Option α) : ℕ → ℕ → Option α
  | 0, i => k i
  | fuel + 1, i =>
    match k i with
    | some r => some r
    | none => if i < s.length then starAnyLazy s k fuel (i + 1) else none

/-- The lookahead `(?=Q\d*[\.:]\s*|$)` as a position test. -/
def lookQ (s : List Char) (i : ℕ) : Bool :=
  (i < s.length ∧ isQChar (s.getD i ' ') ∧
    (skipDigits s (i + 1) < s.length ∧
      isDotColon (s.getD (skipDigits s (i + 1)) ' ')))
  ∨ i = s.length
  ∨ (i + 1 = s.length ∧ s.getD i ' ' = '\n')

/-- Match the primary pattern anchored at `i`, returning the two captured
group spans `(q_start, q_end, a_start, a_end)`; the overall match ends at
`a_end` (the lookahead is zero-width). -/
def matchQA (s : List Char) (i : ℕ) : Option (ℕ × ℕ × ℕ × ℕ) :=
  let n := s.length
  if i < n ∧ isQChar (s.getD i ' ') then
    let i1 := skipDigits s (i + 1)
    if i1 < n ∧ isDotColon (s.getD i1 ' ') then
      starWS s (fun p =>
        starAnyLazy s (fun qe =>
          if qe < n ∧ s.getD qe ' ' = '\n' then
            starWS s (fun r =>
              if r < n ∧ isAChar (s.getD r ' ') ∧ r + 1 < n ∧
                  isDotColon (s.getD (r + 1) ' ') then
                starWS s (fun p2 =>
                  starAnyLazy s (fun ae =>
                    if lookQ s ae then some (p, qe, p2, ae) else none)
                    (n + 1) p2)
                  (n + 1) (r + 2)
              else none)
              (n + 1) (qe + 1)
          else none)
          (n + 1) p)
        (n + 1) (i1 + 1)
    else none
  else none

/-- `re.findall` scan: try each position left to right; after a match,
resume at its end (every match here has positive width). -/
def findallQA (s : List Char) : ℕ → ℕ → List ((ℕ × ℕ) × (ℕ × ℕ))
  | 0, _ => []
  | fuel + 1, pos =>
    if pos < s.length then
      match matchQA s pos with
      | some (qs, qe, as_, ae) =>
        ((qs, qe), (as_, ae)) ::
          findallQA s fuel (if pos < ae then ae else pos + 1)
      | none => findallQA s fuel (pos + 1)
    else []

/-- Substring by character span. -/
def sliceStr (s : List Char) (lo hi : ℕ) : String :=
  String.mk ((s.drop lo).take (hi - lo))

/-- `text.split('\n')`. -/
def splitOnNl : List Char → List (List Char)
  | [] => [[]]
  | c :: rest =>
    if c = '\n' then [] :: splitOnNl rest
    else
      match splitOnNl rest with
      | h :: t => (c :: h) :: t
      | [] => [[c]]

/-- `re.sub(r'^Q\d*[\.:]\s*|^\d+\.\s*', '', line, flags=re.IGNORECASE)`:
the first alternative, else the second, else the line unchanged. -/
def dropQLabel (line : List Char) : List Char :=
  let b1 : Option (List Char) :=
    match line with
    | c :: rest =>
      if isQChar c then
        match rest.dropWhile Char.isDigit with
        | d :: rest2 =>
          if isDotColon d then some (rest2.dropWhile isPySpace) else none
        | [] => none
      else none
    | [] => none
  match b1 with
  | some r => r
  | none =>
    if (line.takeWhile Char.isDigit).isEmpty then line
    else
      match line.dropWhile Char.isDigit with
      | d :: rest2 =>
        if d = '.' then rest2.dropWhile isPySpace else line
      | [] => line

/-- `re.sub(r'^A[\.:]\s*', '', line, flags=re.IGNORECASE)`. -/
def dropALabel (line : List Char) : List Char :=
  match line with
  | c :: d :: rest =>
    if isAChar c ∧ isDotColon d then rest.dropWhile isPySpace
    else line
  | _ => line

/-- `re.match(r'^\d+\.', line)` as a test. -/
def startsWithDigitDot (line : List Char) : Bool :=
  !(line.takeWhile Char.isDigit).isEmpty &&
    (match line.dropWhile Char.isDigit with
     | d :: _ => decide (d = '.')
     | [] => false)

/-- The fallback line scan of `parse_questions_answers`.  A stripped line
starting with `q`/`Q` or `digits.` opens a question; a line starting with
`a`/`A` closes it when `current_q` is truthy (set and non-empty). -/
def fallbackScan : Option String → List (List Char) → List (String × String)
  | _, [] => []
  | cq, line :: rest =>
    let l := pyStripL line
    if l.isEmpty then fallbackScan cq rest
    else if isQChar (l.headD ' ') || startsWithDigitDot l then
      fallbackScan (some (String.mk (dropQLabel l))) rest
    else
      match cq with
      | some q =>
        if isAChar (l.headD ' ') && q ≠ ("") then
          (q, String.mk (dropALabel l)) :: fallbackScan none rest
        else fallbackScan cq rest
      | none => fallbackScan cq rest

/-- `ExamGrader.parse_questions_answers`: the regex pass (each captured
pair stripped), then the line-scanning fallback if it found nothing.
The 1-based `number` field is the list position. -/
def parse_questions_answers (text : String) : List (String × String) :=
  let s := text.data
  let primary := (findallQA s (s.length + 1) 0).map
    (fun p => (pyStrip (sliceStr s p.1.1 p.1.2), pyStrip (sliceStr s p.2.1 p.2.2)))
  if primary.isEmpty then fallbackScan none (splitOnNl (pyStripL s))
  else primary

/-! ## `ExamGrader.grade` (the orchestrator) -/

/-- The `summary` sub-dictionary of a successful report. -/
structure ExamSummary where
  correct : ℕ
  partial_ : ℕ
  incorrect : ℕ
  total : ℕ
  deriving Repr

/-- The report dictionary of `ExamGrader.grade`.  The failure dictionary
carries only `success`, `error`, `questions` and the two totals; the other
fields are zero-valued here. -/
structure ExamReport where
  success : Bool
  error : Option String
  questions : List GradeResult
  total_marks : ℚ
  total_max_marks : ℚ
  percentage : ℚ
  grade : String
  algorithm_used : String
  subject : String
  summary : ExamSummary
  deriving Repr

/-- The letter-grade ladder in `ExamGrader.grade`. -/
def gradeLetter (percentage : ℚ) : String :=
  if 90 ≤ percentage then ("A+")
  else if 80 ≤ percentage then ("A")
  else if 70 ≤ percentage then ("B+")
  else if 60 ≤ percentage then ("B")
  else if 50 ≤ percentage then ("C")
  else if 40 ≤ percentage then ("D")
  else ("F")

/-- `ExamGrader.grade`: parse, fail structurally on zero pairs, otherwise
grade each pair, sum marks, and aggregate percentage, letter and summary
counts. -/
def grade (text algorithm subject : String) : ExamReport :=
  let qa := parse_questions_answers text
  if qa.isEmpty then
    ⟨false, some ("Could not parse questions and answers from text"), [],
      0, 0, 0, (""), algorithm, subject, ⟨0, 0, 0, 0⟩⟩
  else
    let results := qa.map (fun p => grade_single_answer p.1 p.2 algorithm)
    let total_marks := (results.map GradeResult.marks).sum
    let total_max := (results.map GradeResult.max_marks).sum
    let percentage := if 0 < total_max then total_marks / total_max * 100 else 0
    ⟨true, none, results, pyRound1 total_marks, total_max,
      pyRound1 percentage, gradeLetter percentage, algorithm, subject,
      ⟨results.countP (fun r => r.status = ("correct")),
       results.countP (fun r => r.status = ("partial")),
       results.countP (fun r => r.status = ("incorrect")),
       results.length⟩⟩

/-! ## Statement-level definitions

Derived notions used to state the claims (not part of the source). -/

/-- Number of candidates a threshold-terminated scan visits: every
candidate up to and including the first whose similarity reaches `thr`,
or all of them. -/
def stopCount (student : String) (thr : ℚ) : List String → ℕ
  | [] => 0
  | c :: rest =>
    if thr ≤ similarity student c then 1 else stopCount student thr rest + 1

/-- The early-termination similarity threshold of each strategy (`search`'s
dispatch: BFS 0.95, DFS 0.9, Greedy 0.7, anything else A* 0.85). -/
def searchThreshold (algorithm : String) : ℚ :=
  if algorithm = ("BFS") then 19/20
  else if algorithm = ("DFS") then 9/10
  else if algorithm = ("Greedy") then 7/10
  else 17/20

/-- The candidate visit order of each strategy. -/
def searchOrder (algorithm student : String) (bank : List String)
    (keywords : Option (List String)) : List String :=
  if algorithm = ("BFS") then bank
  else if algorithm = ("DFS") then bank.reverse
  else if algorithm = ("Greedy") then greedyOrder student bank keywords
  else astarOrder student bank keywords

/-- The normalization `similarity` applies to both arguments. -/
def normalizeAnswer (s : String) : String := pyStrip (pyLower s)

/-! # Theorems

## Search node counting (claim C7) -/

theorem searchVisit_nodes (student : String) (thr : ℚ) :
    ∀ (l : List String) (best : Option String) (score : ℚ) (n : ℕ),
    (searchVisit student thr l best score n).2.2
      = n + stopCount student thr l := by
  intro l
  induction l with
  | nil => intro best score n; simp [searchVisit, stopCount]
  | cons c rest ih =>
    intro best score n
    simp only [searchVisit, stopCount]
    by_cases h : thr ≤ similarity student c
    · simp [h]
    · simp only [h, if_false]
      rw [ih]
      omega

theorem stopCount_le_length (student : String) (thr : ℚ) (l : List String) :
    stopCount student thr l ≤ l.length := by
  induction l with
  | nil => simp [stopCount]
  | cons c rest ih =>
    simp only [stopCount, List.length_cons]
    by_cases h : thr ≤ similarity student c
    · simp only [h, if_true]; omega
    · simp only [h, if_false]; omega

theorem stopCount_eq_length (student : String) (thr : ℚ) (l : List String)
    (h : ∀ c ∈ l, similarity student c < thr) :
    stopCount student thr l = l.length := by
  induction l with
  | nil => simp [stopCount]
  | cons c rest ih =>
    have hc : similarity student c < thr := h c (by simp)
    simp only [stopCount, List.length_cons, not_le.mpr hc, if_false]
    rw [ih (fun x hx => h x (by simp [hx]))]

theorem search_nodes_eq (algorithm student : String) (bank : List String)
    (keywords : Option (List String)) :
    (search student bank algorithm keywords).nodes_explored
      = stopCount student (searchThreshold algorithm)
          (searchOrder algorithm student bank keywords) := by
  unfold search searchThreshold searchOrder bfs_search dfs_search
    greedy_search astar_search
  split_ifs <;> simp [searchVisit_nodes]

theorem searchOrder_length (algorithm student : String) (bank : List String)
    (keywords : Option (List String)) :
    (searchOrder algorithm student bank keywords).length = bank.length := by
  unfold searchOrder greedyOrder astarOrder
  split_ifs <;>
    simp [((List.mergeSort_perm _ _).length_eq), List.length_mergeSort]

theorem searchOrder_mem (algorithm student : String) (bank : List String)
    (keywords : Option (List String)) (c : String) :
    c ∈ searchOrder algorithm student bank keywords ↔ c ∈ bank := by
  unfold searchOrder greedyOrder astarOrder
  split_ifs <;>
    simp [List.mem_map, (List.mergeSort_perm _ _).mem_iff]

/-- Claim C7: for every strategy, student answer and reference bank,
`nodes_explored` is exactly the number of candidates visited before
termination (the counter is per-call state, reset on entry, so each call's
count depends only on its own arguments); it never exceeds the bank size,
and equals the bank size exactly when no candidate reaches the strategy's
termination threshold. -/
theorem C7_nodes_explored (algorithm student : String) (bank : List String)
    (keywords : Option (List String)) :
    (search student bank algorithm keywords).nodes_explored
        = stopCount student (searchThreshold algorithm)
            (searchOrder algorithm student bank keywords)
      ∧ (search student bank algorithm keywords).nodes_explored ≤ bank.length
      ∧ ((∀ c ∈ bank, similarity student c < searchThreshold algorithm) →
          (search student bank algorithm keywords).nodes_explored
            = bank.length) := by
  refine ⟨search_nodes_eq algorithm student bank keywords, ?_, ?_⟩
  · rw [search_nodes_eq algorithm student bank keywords]
    have h1 := stopCount_le_length student (searchThreshold algorithm)
      (searchOrder algorithm student bank keywords)
    rwa [searchOrder_length] at h1
  · intro h
    rw [search_nodes_eq algorithm student bank keywords,
      stopCount_eq_length _ _ _
        (fun c hc => h c ((searchOrder_mem algorithm student bank keywords c).mp hc)),
      searchOrder_length]

/-- Witness for C7 at a concrete call: one candidate, which does not reach
the BFS threshold, so exactly one node is explored. -/
theorem C7_nodes_explored_witness :
    (search ("cat") [("dog")] ("BFS") none).nodes_explored = 1 := by
  have h := C7_nodes_explored ("BFS") ("cat") [("dog")] none
  have hlt : ∀ c ∈ [("dog")], similarity ("cat") c < searchThreshold ("BFS") := by
    with_unfolding_all exact of_decide_eq_true rfl
  have := h.2.2 hlt
  simpa using this

/-! ## Rubric repair (claims C3 and C6) -/

theorem clampStep_total_le {a : RubricAssignment} {M : ℚ}
    (h : rubricTotal a ≤ M) : rubricTotal (clampStep a M) ≤ M := by
  unfold clampStep
  split_ifs with hc
  · unfold rubricTotal at h ⊢
    simp only
    linarith [hc.2]
  · exact h

theorem backtrackStep_total_le {a : RubricAssignment} {M : ℚ}
    (h : rubricTotal a ≤ M) : rubricTotal (backtrackStep a M) ≤ M := by
  unfold backtrackStep scaleStep
  have hnot : ¬ (M < rubricTotal a) := not_lt.mpr h
  simp only [hnot, if_false]
  exact clampStep_total_le h

theorem backtrackLoop_total_le {M : ℚ} (fuel : ℕ) {a : RubricAssignment}
    (h : rubricTotal a ≤ M) : rubricTotal (backtrackLoop M fuel a) ≤ M := by
  induction fuel generalizing a with
  | zero => exact h
  | succ n ih =>
    unfold backtrackLoop
    split_ifs with hcons
    · exact h
    · exact ih (backtrackStep_total_le h)

/-- Claim C3, counterexample: with maximal evidence and `max_marks = 5`,
the initial allocation rounds to `(1.8, 2.0, 0.8, 0.5)`, total `5.1 > 5`;
the proportional shrink re-rounds every component back to itself, so all
100 repair iterations stall and the returned assignment still sums to
`5.1 > 5` (the float trace agrees: `round(1.75, 1) = 1.8` and
`round(0.75, 1) = 0.8` in Python too). -/
theorem C3_counterexample :
    rubricTotal (backtracking_grade ⟨1, 1, true, true⟩ 5) = 51/10 ∧
      ¬ rubricTotal (backtracking_grade ⟨1, 1, true, true⟩ 5) ≤ 5 := by
  constructor
  · with_unfolding_all rfl
  · with_unfolding_all exact of_decide_eq_true rfl

/-- Claim C3 as amended: for evidence with `keyword_match` and `similarity`
in `[0,1]` and an even natural `max_marks`, the four initially allocated
components are capped by their exact tenth-grid shares, so the total never
exceeds `max_marks`, and the repair loop (proportional shrink skipped,
dependency clamp only decreasing) preserves that bound. -/
theorem pyRound1_eq_of_tenths {x : ℚ} (m : ℤ) (h : x = (m : ℚ) / 10) :
    pyRound1 x = x := by
  rw [h, pyRound1_tenths]

theorem pyRound1_le_of_le_tenths {x : ℚ} (m : ℤ) (h : x ≤ (m : ℚ) / 10) :
    pyRound1 x ≤ (m : ℚ) / 10 := by
  have := pyRound1_mono h
  rwa [pyRound1_tenths] at this

theorem C3_amended (k : ℕ) (kw sim : ℚ) (lok steps : Bool)
    (hk0 : 0 ≤ kw) (hk1 : kw ≤ 1) (hs0 : 0 ≤ sim) (hs1 : sim ≤ 1) :
    rubricTotal (backtracking_grade ⟨kw, sim, lok, steps⟩ (2 * (k : ℚ)))
      ≤ 2 * (k : ℚ) := by
  unfold backtracking_grade backtrack_adjust
  apply backtrackLoop_total_le
  have hknn : (0 : ℚ) ≤ (k : ℚ) := by positivity
  -- content ≤ 0.7 k and accuracy ≤ 0.8 k (exact on the tenth grid)
  have hcont := pyRound1_le_of_le_tenths (x := kw * (2 * (k : ℚ) * (35/100)))
    (7 * (k : ℤ)) (by push_cast; nlinarith)
  have hacc := pyRound1_le_of_le_tenths (x := sim * (2 * (k : ℚ) * (2/5)))
    (8 * (k : ℤ)) (by push_cast; nlinarith)
  push_cast at hcont hacc
  unfold rubricTotal
  simp only
  rcases Nat.eq_zero_or_pos k with hk | hk
  · subst hk
    have h0 : pyRound1 0 = 0 := by simpa using pyRound1_tenths 0
    have e1 : kw * (2 * ((0:ℕ) : ℚ) * (35/100)) = 0 := by push_cast; ring
    have e2 : sim * (2 * ((0:ℕ) : ℚ) * (2/5)) = 0 := by push_cast; ring
    have e3 : (if lok then (1:ℚ) else 1/2) * (2 * ((0:ℕ) : ℚ) * (15/100)) = 0 := by
      cases lok <;> norm_num
    have e4 : (if steps then (1:ℚ) else 1/2) * (2 * ((0:ℕ) : ℚ) * (1/10)) = 0 := by
      cases steps <;> norm_num
    rw [e1, e2, e3, e4, h0]
    push_cast
    norm_num
  · have hk1' : (1 : ℚ) ≤ (k : ℚ) := by exact_mod_cast hk
    -- completeness ≤ 0.3 k (with 1/20 rounding headroom in the halved case)
    have hcomp : pyRound1 ((if lok then (1:ℚ) else 1/2) * (2 * (k : ℚ) * (15/100)))
        ≤ 3 * (k : ℚ) / 10 - 1/20 + 1/20 := by
      cases lok
      · have harg : (if (false : Bool) then (1:ℚ) else 1/2) *
            (2 * (k : ℚ) * (15/100)) = 3 * (k : ℚ) / 20 := by
          norm_num
          try ring
        rw [harg]
        have hle := pyRound1_le_add (3 * (k : ℚ) / 20)
        nlinarith
      · have harg : (if (true : Bool) then (1:ℚ) else 1/2) *
            (2 * (k : ℚ) * (15/100)) = ((3 * (k : ℤ) : ℤ) : ℚ) / 10 := by
          norm_num
          push_cast
          try ring
        rw [harg, pyRound1_tenths]
        push_cast
        nlinarith
    -- presentation ≤ 0.2 k (both branches exact on the tenth grid)
    have hpres : pyRound1 ((if steps then (1:ℚ) else 1/2) * (2 * (k : ℚ) * (1/10)))
        ≤ 2 * (k : ℚ) / 10 := by
      cases steps
      · have harg : (if (false : Bool) then (1:ℚ) else 1/2) *
            (2 * (k : ℚ) * (1/10)) = (((k : ℤ)) : ℚ) / 10 := by
          norm_num
          push_cast
          try ring
        rw [harg, pyRound1_tenths]
        push_cast
        nlinarith
      · have harg : (if (true : Bool) then (1:ℚ) else 1/2) *
            (2 * (k : ℚ) * (1/10)) = ((2 * (k : ℤ) : ℤ) : ℚ) / 10 := by
          norm_num
          push_cast
          try ring
        rw [harg, pyRound1_tenths]
        push_cast
        nlinarith
    nlinarith [hcont, hacc, hcomp, hpres]

/-- Witness for C3 as amended, at `k = 5` (`max_marks = 10`, the value the
module's own demo uses) and the demo evidence. -/
theorem C3_amended_witness :
    rubricTotal (backtracking_grade ⟨4/5, 17/20, true, true⟩ (2 * ((5 : ℕ) : ℚ)))
      ≤ 2 * ((5 : ℕ) : ℚ) :=
  C3_amended 5 (4/5) (17/20) true true (by norm_num) (by norm_num)
    (by norm_num) (by norm_num)

theorem clampStep_dependency {a : RubricAssignment} {M : ℚ} (hM : 0 ≤ M)
    (h0 : (clampStep a M).accuracy_score = 0) :
    (clampStep a M).content_score ≤ M * (2/5) * (1/2) := by
  unfold clampStep at h0 ⊢
  split_ifs at h0 ⊢ with hc
  · simp only at h0 ⊢
    nlinarith
  · rw [not_and_or, not_lt] at hc
    rcases hc with hc | hc
    · exact absurd h0 hc
    · nlinarith

theorem backtrackStep_dependency {a : RubricAssignment} {M : ℚ} (hM : 0 ≤ M)
    (h0 : (backtrackStep a M).accuracy_score = 0) :
    (backtrackStep a M).content_score ≤ M * (2/5) * (1/2) := by
  unfold backtrackStep at h0 ⊢
  exact clampStep_dependency hM h0

theorem backtrackLoop_dependency {M : ℚ} (hM : 0 ≤ M) (fuel : ℕ)
    (a : RubricAssignment)
    (h0 : (backtrackLoop M (fuel + 1) a).accuracy_score = 0) :
    (backtrackLoop M (fuel + 1) a).content_score ≤ M * (2/5) * (1/2) := by
  induction fuel generalizing a with
  | zero =>
    unfold backtrackLoop at h0 ⊢
    split_ifs at h0 ⊢ with hcons
    · exact hcons.2.2.1 h0
    · exact backtrackStep_dependency hM h0
  | succ n ih =>
    unfold backtrackLoop at h0 ⊢
    split_ifs at h0 ⊢ with hcons
    · exact hcons.2.2.1 h0
    · exact ih (backtrackStep a M) h0

/-- Claim C6, counterexample: with `max_marks = 10`, zero similarity and
`keyword_match = 0.55`, the initial allocation has `accuracy = 0` and
`content = 1.9`; the checker's dependency constraint caps content by
`0.5 * (0.40 * max_marks) = 2.0`, not by content's own share-derived cap
`0.5 * (0.35 * max_marks) = 1.75`, so the assignment is already consistent,
the repair loop never runs, and the returned content `1.9` exceeds `1.75`. -/
theorem C6_counterexample :
    (backtracking_grade ⟨11/20, 0, true, false⟩ 10).accuracy_score = 0 ∧
      (backtracking_grade ⟨11/20, 0, true, false⟩ 10).content_score = 19/10 ∧
      ¬ (backtracking_grade ⟨11/20, 0, true, false⟩ 10).content_score
          ≤ 10 * (1/2) * (35/100) := by
  refine ⟨?_, ?_, ?_⟩
  · with_unfolding_all rfl
  · with_unfolding_all rfl
  · with_unfolding_all exact of_decide_eq_true rfl

/-- Claim C6 as amended: post-repair, zero accuracy caps content at 50% of
the cap the constraint checker actually derives, which is a `0.40` share of
`max_marks` (`is_consistent` passes `max_content = max_marks * 0.4`), i.e.
`content ≤ max_marks * 0.4 * 0.5`; the tighter `0.35`-share clamp inside
the repair loop only applies when some constraint is violated. -/
theorem C6_amended (ev : RubricEvidence) (M : ℚ) (hM : 0 ≤ M)
    (h0 : (backtracking_grade ev M).accuracy_score = 0) :
    (backtracking_grade ev M).content_score ≤ M * (2/5) * (1/2) := by
  unfold backtracking_grade backtrack_adjust at h0 ⊢
  exact backtrackLoop_dependency hM 99 _ h0

/-- Witness for C6 as amended at the concrete counterexample input: the
returned content `1.9` is indeed within the amended bound `2.0`. -/
theorem C6_amended_witness :
    (backtracking_grade ⟨11/20, 0, true, false⟩ 10).content_score
      ≤ 10 * (2/5) * (1/2) := by
  refine C6_amended ⟨11/20, 0, true, false⟩ 10 (by norm_num) ?_
  with_unfolding_all rfl

/-! ## The arithmetic-question scenario (claim C2) -/

set_option maxRecDepth 4000 in
/-- Claim C2, counterexample: grading `"Calculate: 15 + 27 = ?"` with
answer `"42"` awards 1.5 of the 2 marks, not full marks.  The numeric
lookup does return the arithmetic entry and the search scores the answer
with similarity 1.0, but `calculate_partial_marks` then multiplies the
(high) confidence by the completeness factor `0.7 + 0.3 * (2/100) = 0.706`
— the two-character answer makes completeness `0.02` — and even the 10%
math steps bonus leaves `2 * 0.9344 * 0.706 * 1.1 ≈ 1.451`, which rounds
to 1.5.  (The float trace agrees: `round(2.9027) = 3`, so `1.5`.) -/
theorem C2_counterexample :
    (grade_single_answer ("Calculate: 15 + 27 = ?") ("42") ("A* Search")).marks
        = 3/2 ∧
      (grade_single_answer ("Calculate: 15 + 27 = ?") ("42") ("A* Search")).max_marks
        = 2 ∧
      (3/2 : ℚ) ≠ 2 := by
  refine ⟨?_, ?_, by norm_num⟩
  · with_unfolding_all rfl
  · with_unfolding_all rfl

set_option maxRecDepth 4000 in
/-- Claim C2 as amended: the numeric-pattern lookup resolves the question
`"Calculate: 15 + 27 = ?"` to the arithmetic reference entry directly
(the `(\d+) op (\d+)` scan fires before any textual matching), and grading
the answer `"42"` then awards 1.5 of the 2 marks — status `"partial"`,
not full marks. -/
theorem C2_amended :
    arithSearch ("Calculate: 15 + 27 = ?").data
        = some (("15").data, ("27").data) ∧
      find_question ("Calculate: 15 + 27 = ?")
        = some ⟨[("42"), ("forty-two"), ("forty two"), ("= 42"), ("is 42")],
            [("42")], 2, ("math")⟩ ∧
      (grade_single_answer ("Calculate: 15 + 27 = ?") ("42") ("A* Search")).marks
        = 3/2 ∧
      (grade_single_answer ("Calculate: 15 + 27 = ?") ("42") ("A* Search")).status
        = ("partial") := by
  refine ⟨rfl, ?_, ?_, ?_⟩
  · with_unfolding_all rfl
  · with_unfolding_all rfl
  · with_unfolding_all rfl

/-! ## Operand-only numeric lookup (claim C8) -/

/-- Claim C8: whenever the arithmetic scan of the question text yields
operand digit strings `g1`, `g2`, and some bank key contains both as
substrings, `find_question` returns the entry of the first such key — the
operator itself is never compared (the numeric branch precedes all textual
matching and consults only the two captured operand strings). -/
theorem C8_operand_lookup (t : String) (g1 g2 : List Char)
    (kv : String × QEntry)
    (h1 : arithSearch t.data = some (g1, g2))
    (h2 : question_bank.find?
        (fun (kv : String × QEntry) => isSub g1 kv.1.data && isSub g2 kv.1.data)
      = some kv) :
    find_question t = some kv.2 := by
  have hcalc : calcLookup t = some kv := by
    unfold calcLookup
    rw [h1]
    exact h2
  unfold find_question
  rw [hcalc]

/-- Witness for C8: `"Calculate: 15 - 27"` — subtraction, not the bank's
addition — still resolves to the `"calculate 15 + 27"` entry, whose listed
correct answer is `"42"`. -/
theorem C8_operand_lookup_witness :
    find_question ("Calculate: 15 - 27")
        = some ⟨[("42"), ("forty-two"), ("forty two"), ("= 42"), ("is 42")],
            [("42")], 2, ("math")⟩ ∧
      (⟨[("42"), ("forty-two"), ("forty two"), ("= 42"), ("is 42")],
          [("42")], 2, ("math")⟩ : QEntry).correct_answers.headD ("")
        = ("42") := by
  constructor
  · exact C8_operand_lookup ("Calculate: 15 - 27") (("15").data) (("27").data)
      ((("calculate 15 + 27")),
        ⟨[("42"), ("forty-two"), ("forty two"), ("= 42"), ("is 42")],
          [("42")], 2, ("math")⟩) rfl rfl
  · rfl

/-! ## Lookup of an empty cleaned question (claim C9) -/

theorem digit_toLower (c : Char) (h : c.isDigit = true) : c.toLower = c := by
  simp only [Char.isDigit, Bool.and_eq_true, decide_eq_true_eq] at h
  have hn : Char.toNat c ≤ 57 := h.2
  unfold Char.toLower
  have hno : ¬ (Char.toNat c ≥ 65 ∧ Char.toNat c ≤ 90) := by omega
  simp [hno]

theorem digit_not_pySpace (c : Char) (h : c.isDigit = true) :
    isPySpace c = false := by
  rcases hb : isPySpace c with _ | _
  · rfl
  · exfalso
    simp only [isPySpace, decide_eq_true_eq] at hb
    rcases hb with rfl|rfl|rfl|rfl|rfl|rfl <;> simp [Char.isDigit] at h

theorem digit_isWordChar (c : Char) (h : c.isDigit = true) :
    isWordChar c = true := by
  simp [isWordChar, Char.isAlphanum, h]

theorem mem_dropWhile_of_not {p : Char → Bool} {c : Char} :
    ∀ {l : List Char}, c ∈ l → p c = false → c ∈ l.dropWhile p := by
  intro l
  induction l with
  | nil => intro h _; exact absurd h (List.not_mem_nil c)
  | cons x xs ih =>
    intro hmem hp
    rw [List.dropWhile_cons]
    split_ifs with hpx
    · rcases List.mem_cons.mp hmem with rfl | hx
      · rw [hp] at hpx
        exact absurd hpx (by simp)
      · exact ih hx hp
    · exact hmem

theorem digit_mem_pyStripL {c : Char} {l : List Char} (hmem : c ∈ l)
    (h : c.isDigit = true) : c ∈ pyStripL l := by
  unfold pyStripL
  have hsp := digit_not_pySpace c h
  have h1 : c ∈ l.dropWhile isPySpace := mem_dropWhile_of_not hmem hsp
  have h2 : c ∈ (l.dropWhile isPySpace).reverse := List.mem_reverse.mpr h1
  have h3 : c ∈ (l.dropWhile isPySpace).reverse.dropWhile isPySpace :=
    mem_dropWhile_of_not h2 hsp
  exact List.mem_reverse.mpr h3

theorem fillerWords_no_digit (w : String) (hw : w ∈ fillerWords)
    (c : Char) (hc : c ∈ w.data) : c.isDigit = false := by
  fin_cases hw <;> fin_cases hc <;> rfl

theorem digit_mem_removeFillerRuns {c : Char} (h : c.isDigit = true) :
    ∀ (l : List Char), c ∈ l → c ∈ removeFillerRuns l := by
  intro l
  induction l using removeFillerRuns.induct with
  | case1 => intro hmem; exact absurd hmem (List.not_mem_nil c)
  | case2 x rest hw run tail hfill ih =>
    intro hmem
    rw [removeFillerRuns]
    simp only [hw, if_true, hfill, if_true]
    have hnotrun : c ∉ run := by
      intro hin
      have hmem' : fillerWords.contains (String.mk run) = true := hfill
      have hstr : String.mk run ∈ fillerWords := by
        simpa using hmem'
      have := fillerWords_no_digit (String.mk run) hstr c hin
      rw [h] at this
      exact Bool.true_eq_false.mp this
    rcases List.mem_cons.mp hmem with rfl | hx
    · exact absurd (List.mem_cons_self c _) hnotrun
    · have hsplit : c ∈ rest.takeWhile isWordChar ∨ c ∈ rest.dropWhile isWordChar := by
        have := List.takeWhile_append_dropWhile (p := isWordChar) (l := rest)
        rw [← this] at hx
        exact List.mem_append.mp hx
      rcases hsplit with htk | hdr
      · exact absurd (List.mem_cons_of_mem x htk) hnotrun
      · exact ih hdr
  | case3 x rest hw run tail hfill ih =>
    intro hmem
    rw [removeFillerRuns]
    simp only [hw, if_true, hfill, if_false]
    rcases List.mem_cons.mp hmem with rfl | hx
    · exact List.mem_append.mpr (Or.inl (List.mem_cons_self c _))
    · have hsplit : c ∈ rest.takeWhile isWordChar ∨ c ∈ rest.dropWhile isWordChar := by
        have := List.takeWhile_append_dropWhile (p := isWordChar) (l := rest)
        rw [← this] at hx
        exact List.mem_append.mp hx
      rcases hsplit with htk | hdr
      · exact List.mem_append.mpr (Or.inl (List.mem_cons_of_mem x htk))
      · exact List.mem_append.mpr (Or.inr (ih hdr))
  | case4 x rest hw ih =>
    intro hmem
    rw [removeFillerRuns]
    simp only [hw, if_false]
    rcases List.mem_cons.mp hmem with rfl | hx
    · exact List.mem_cons_self c _
    · exact List.mem_cons_of_mem x (ih hx)

theorem digit_mem_punctToSpace {c : Char} (h : c.isDigit = true)
    {l : List Char} (hmem : c ∈ l) : c ∈ punctToSpace l := by
  unfold punctToSpace
  have hf : (if isWordChar c || isPySpace c then c else ' ') = c := by
    rw [digit_isWordChar c h]
    simp
  have hmm := List.mem_map_of_mem (fun x => if isWordChar x || isPySpace x then x else ' ') hmem
  simp only at hmm
  rwa [hf] at hmm

theorem digit_mem_collapseWS {c : Char} (h : c.isDigit = true) :
    ∀ (l : List Char), c ∈ l → c ∈ collapseWS l := by
  intro l
  induction l using collapseWS.induct with
  | case1 => intro hmem; exact absurd hmem (List.not_mem_nil c)
  | case2 x rest hsp ih =>
    intro hmem
    rw [collapseWS]
    simp only [hsp, if_true]
    rcases List.mem_cons.mp hmem with rfl | hx
    · rw [digit_not_pySpace c h] at hsp
      exact absurd hsp (by simp)
    · exact List.mem_cons_of_mem ' '
        (ih (mem_dropWhile_of_not hx (digit_not_pySpace c h)))
  | case3 x rest hsp ih =>
    intro hmem
    rw [collapseWS]
    simp only [hsp, if_false]
    rcases List.mem_cons.mp hmem with rfl | hx
    · exact List.mem_cons_self c _
    · exact List.mem_cons_of_mem x (ih hx)

theorem arithAt_digit {l : List Char} {r : List Char × List Char}
    (h : arithAt l = some r) : ∃ c ∈ l, c.isDigit = true := by
  cases l with
  | nil => simp [arithAt] at h
  | cons c rest =>
    by_cases hd : c.isDigit
    · exact ⟨c, List.mem_cons_self c rest, hd⟩
    · exfalso
      unfold arithAt at h
      rw [List.takeWhile_cons] at h
      simp only [Bool.not_eq_true] at hd
      rw [hd] at h
      simp at h

theorem arithSearch_digit :
    ∀ {l : List Char} {r : List Char × List Char},
    arithSearch l = some r → ∃ c ∈ l, c.isDigit = true := by
  intro l
  induction l with
  | nil => intro r h; simp [arithSearch] at h
  | cons c rest ih =>
    intro r h
    rw [arithSearch] at h
    rcases ha : arithAt (c :: rest) with _ | r'
    · rw [ha] at h
      obtain ⟨x, hx, hdx⟩ := ih h
      exact ⟨x, List.mem_cons_of_mem c hx, hdx⟩
    · exact arithAt_digit ha

theorem eqAt_digit {l : List Char} {r : List Char × List Char × List Char}
    (h : eqAt l = some r) : ∃ c ∈ l, c.isDigit = true := by
  cases l with
  | nil => simp [eqAt] at h
  | cons c rest =>
    by_cases hd : c.isDigit
    · exact ⟨c, List.mem_cons_self c rest, hd⟩
    · exfalso
      unfold eqAt at h
      rw [List.takeWhile_cons] at h
      simp only [Bool.not_eq_true] at hd
      rw [hd] at h
      simp at h

theorem eqSearch_digit :
    ∀ {l : List Char} {r : List Char × List Char × List Char},
    eqSearch l = some r → ∃ c ∈ l, c.isDigit = true := by
  intro l
  induction l with
  | nil => intro r h; simp [eqSearch] at h
  | cons c rest ih =>
    intro r h
    rw [eqSearch] at h
    rcases ha : eqAt (c :: rest) with _ | r'
    · rw [ha] at h
      obtain ⟨x, hx, hdx⟩ := ih h
      exact ⟨x, List.mem_cons_of_mem c hx, hdx⟩
    · exact eqAt_digit ha

/-- A question text whose cleaned form is empty contains no digit
characters (digits survive every cleaning stage). -/
theorem no_digit_of_clean_empty (t : String)
    (h : cleanQuestion (pyLower t) = ("")) :
    ∀ c ∈ t.data, c.isDigit = false := by
  intro c hc
  by_contra hdig
  rw [Bool.not_eq_false] at hdig
  have h1 : c.toLower ∈ (pyLower t).data := by
    unfold pyLower
    exact List.mem_map_of_mem Char.toLower hc
  rw [digit_toLower c hdig] at h1
  have h2 := digit_mem_removeFillerRuns hdig _ h1
  have h3 := digit_mem_punctToSpace hdig h2
  have h4 := digit_mem_pyStripL h3 hdig
  have h5 := digit_mem_collapseWS hdig _ h4
  have h6 : c ∈ (cleanQuestion (pyLower t)).data := h5
  rw [h] at h6
  exact absurd h6 (List.not_mem_nil c)

/-- Claim C9: a question text whose cleaned form is empty (all words are
question fillers, the rest punctuation) is not a lookup failure: the empty
cleaned string is a substring of every key, so the exact-match loop returns
the first entry of the bank (the "what is artificial intelligence"
definition entry).  The numeric branches cannot fire because such a text
contains no digits. -/
theorem C9_empty_clean_lookup (t : String)
    (h : cleanQuestion (pyLower t) = ("")) :
    find_question t
      = some ⟨[("Artificial Intelligence is the simulation of human intelligence processes by machines, especially computer systems"),
          ("AI is the ability of machines to perform tasks that typically require human intelligence"),
          ("AI refers to systems that can perform tasks requiring human intelligence such as learning, reasoning, and problem-solving"),
          ("The simulation of human intelligence in machines programmed to think like humans")],
         [("artificial"), ("intelligence"), ("machines"), ("human"),
          ("simulation"), ("learning"), ("reasoning")], 5, ("definition")⟩ := by
  have hnod := no_digit_of_clean_empty t h
  have harith : arithSearch t.data = none := by
    rcases ha : arithSearch t.data with _ | pr
    · rfl
    · exfalso
      obtain ⟨c, hc, hdig⟩ := arithSearch_digit ha
      rw [hnod c hc] at hdig
      exact absurd hdig (by simp)
  have heq : eqSearch (t.data.filter (fun c => decide (c ≠ ' '))) = none := by
    rcases ha : eqSearch (t.data.filter (fun c => decide (c ≠ ' '))) with _ | pr
    · rfl
    · exfalso
      obtain ⟨c, hc, hdig⟩ := eqSearch_digit ha
      rw [hnod c (List.mem_of_mem_filter hc)] at hdig
      exact absurd hdig (by simp)
  have hcalc : calcLookup t = none := by
    unfold calcLookup
    rw [harith]
  have heqL : eqLookup t = none := by
    unfold eqLookup
    rw [heq]
  have htext : textLookup (("") : String)
      = some ((("what is artificial intelligence")),
          ⟨[("Artificial Intelligence is the simulation of human intelligence processes by machines, especially computer systems"),
            ("AI is the ability of machines to perform tasks that typically require human intelligence"),
            ("AI refers to systems that can perform tasks requiring human intelligence such as learning, reasoning, and problem-solving"),
            ("The simulation of human intelligence in machines programmed to think like humans")],
           [("artificial"), ("intelligence"), ("machines"), ("human"),
            ("simulation"), ("learning"), ("reasoning")], 5, ("definition")⟩) := by
    with_unfolding_all rfl
  unfold find_question
  simp only [h, hcalc, heqL, htext]

/-- Witness for C9 at the concrete text `"What is the?"`, whose cleaned
form is empty. -/
theorem C9_empty_clean_lookup_witness :
    (find_question ("What is the?")).map QEntry.max_marks = some 5 := by
  rw [C9_empty_clean_lookup ("What is the?") (by with_unfolding_all rfl)]
  rfl

/-! ## Mark quantization and range (claim C1) -/

theorem bayesian_update_mem {p lc li : ℚ} (hp0 : 0 ≤ p) (hp1 : p ≤ 1)
    (hlc : 0 ≤ lc) (hli : 0 ≤ li) :
    0 ≤ bayesian_update p lc li ∧ bayesian_update p lc li ≤ 1 := by
  unfold bayesian_update
  dsimp only
  split_ifs with hz
  · exact ⟨hp0, hp1⟩
  · have hnum : 0 ≤ lc * p := mul_nonneg hlc hp0
    have hden0 : 0 ≤ lc * p + li * (1 - p) := by nlinarith
    have hden : 0 < lc * p + li * (1 - p) := lt_of_le_of_ne hden0 (Ne.symm hz)
    constructor
    · positivity
    · rw [div_le_one hden]
      nlinarith

theorem cpt_keyword_match_nonneg (cat : String) :
    0 ≤ (cpt_keyword_match cat).1 ∧ 0 ≤ (cpt_keyword_match cat).2 := by
  unfold cpt_keyword_match
  split_ifs <;> norm_num

theorem cpt_similarity_nonneg (cat : String) :
    0 ≤ (cpt_similarity cat).1 ∧ 0 ≤ (cpt_similarity cat).2 := by
  unfold cpt_similarity
  split_ifs <;> norm_num

theorem cpt_length_appropriate_nonneg (b : Bool) :
    0 ≤ (cpt_length_appropriate b).1 ∧ 0 ≤ (cpt_length_appropriate b).2 := by
  unfold cpt_length_appropriate
  split_ifs <;> norm_num

theorem calculate_confidence_mem (ks ss : ℚ) (lok : Bool) :
    0 ≤ (calculate_confidence ks ss lok).confidence ∧
      (calculate_confidence ks ss lok).confidence ≤ 1 := by
  unfold calculate_confidence
  dsimp only
  have h1 := bayesian_update_mem (p := 1/2) (by norm_num) (by norm_num)
    (cpt_keyword_match_nonneg (categorize_score ks)).1
    (cpt_keyword_match_nonneg (categorize_score ks)).2
  have h2 := bayesian_update_mem h1.1 h1.2
    (cpt_similarity_nonneg (categorize_score ss)).1
    (cpt_similarity_nonneg (categorize_score ss)).2
  exact bayesian_update_mem h2.1 h2.2
    (cpt_length_appropriate_nonneg lok).1
    (cpt_length_appropriate_nonneg lok).2

theorem halfQuantized_min {a b : ℚ} (ha : halfQuantized a)
    (hb : halfQuantized b) : halfQuantized (min a b) := by
  rcases min_choice a b with h | h <;> rw [h]
  · exact ha
  · exact hb

theorem halfQuantized_max {a b : ℚ} (ha : halfQuantized a)
    (hb : halfQuantized b) : halfQuantized (max a b) := by
  rcases max_choice a b with h | h <;> rw [h]
  · exact ha
  · exact hb

theorem tenthQuantized_pyRound1 (q : ℚ) : tenthQuantized (pyRound1 q) :=
  ⟨roundEven (10 * q), rfl⟩

/-- `calculate_partial_marks` returns marks in `[0, max_marks]`, quantized
to halves whenever `max_marks` is. -/
theorem calculate_partial_marks_marks (M ks ss comp : ℚ) (steps : Bool)
    (hM : 0 ≤ M) :
    0 ≤ (calculate_partial_marks M ks ss comp steps).marks ∧
      (calculate_partial_marks M ks ss comp steps).marks ≤ M ∧
      (halfQuantized M →
        halfQuantized (calculate_partial_marks M ks ss comp steps).marks) := by
  unfold calculate_partial_marks
  dsimp only
  refine ⟨le_max_left 0 _, max_le hM (min_le_left M _), fun hhM => ?_⟩
  exact halfQuantized_max ⟨0, by norm_num⟩
    (halfQuantized_min hhM ⟨roundEven _, rfl⟩)

/-- Every bank entry's `max_marks` is one of 2, 3, 4, 5. -/
theorem question_bank_max_marks :
    ∀ kv ∈ question_bank, kv.2.max_marks = 2 ∨ kv.2.max_marks = 3 ∨
      kv.2.max_marks = 4 ∨ kv.2.max_marks = 5 := by
  with_unfolding_all exact of_decide_eq_true rfl

theorem calcLookup_mem {t : String} {kv : String × QEntry}
    (h : calcLookup t = some kv) : kv ∈ question_bank := by
  unfold calcLookup at h
  rcases ha : arithSearch t.data with _ | ⟨g1, g2⟩ <;> rw [ha] at h
  · exact absurd h (by simp)
  · exact List.mem_of_find?_eq_some h

theorem eqLookup_mem {t : String} {kv : String × QEntry}
    (h : eqLookup t = some kv) : kv ∈ question_bank := by
  unfold eqLookup at h
  rcases ha : eqSearch (t.data.filter (fun c => decide (c ≠ ' ')))
      with _ | ⟨g1, g2, g3⟩ <;> rw [ha] at h
  · exact absurd h (by simp)
  · exact List.mem_of_find?_eq_some h

theorem find_question_mem {q : String} {d : QEntry}
    (h : find_question q = some d) : ∃ kv ∈ question_bank, kv.2 = d := by
  unfold find_question at h
  dsimp only at h
  rcases hc : calcLookup q with _ | kv1 <;> rw [hc] at h
  case some =>
    exact ⟨kv1, calcLookup_mem hc, Option.some.inj h⟩
  case none =>
    rcases he : eqLookup q with _ | kv2 <;> rw [he] at h
    case some =>
      exact ⟨kv2, eqLookup_mem he, Option.some.inj h⟩
    case none =>
      rcases ht : textLookup (cleanQuestion (pyLower q)) with _ | kv3 <;>
        rw [ht] at h
      case some =>
        exact ⟨kv3, List.mem_of_find?_eq_some ht, Option.some.inj h⟩
      case none =>
        rcases Option.map_eq_some'.mp h with ⟨kv4, hf4, hkv4⟩
        exact ⟨kv4, List.mem_of_find?_eq_some hf4, hkv4⟩

/-- Claim C1, counterexample: grading the unmatched question
`"zebra quantum"` takes the generic path, whose marks are
`round(5 * confidence, 1)` — rounded to tenths, not halves.  With both
extracted keywords present in the 41-character answer, the Bayesian
posterior is `57/58`, and `round(5 * 57/58, 1) = 4.9`, which is not a
multiple of 0.5.  (The float trace agrees: `round(4.9137..., 1) = 4.9`.) -/
theorem C1_counterexample :
    (grade_single_answer ("zebra quantum")
        ("zebra quantum something making length 40x") ("A* Search")).marks
      = 49/10 ∧
      ¬ halfQuantized (49/10 : ℚ) := by
  constructor
  · with_unfolding_all rfl
  · rintro ⟨k, hk⟩
    have h1 : (49 : ℚ) * 2 = (k : ℚ) * 10 := by
      field_simp at hk
      linarith
    have h2 : (98 : ℤ) = k * 10 := by exact_mod_cast h1
    omega

/-- Claim C1 as amended: every `GradeResult` has marks within
`[0, max_marks]`.  Marks are quantized to 0.5 increments on the
reference-bank path; on the generic path (question not found) they are
instead quantized to 0.1 increments (`round(5 * confidence, 1)`), with
`max_marks = 5`. -/
theorem C1_amended (question answer algorithm : String) :
    0 ≤ (grade_single_answer question answer algorithm).marks ∧
      (grade_single_answer question answer algorithm).marks
        ≤ (grade_single_answer question answer algorithm).max_marks ∧
      ((find_question question).isSome →
        halfQuantized (grade_single_answer question answer algorithm).marks) ∧
      (find_question question = none →
        (grade_single_answer question answer algorithm).max_marks = 5 ∧
          tenthQuantized (grade_single_answer question answer algorithm).marks) := by
  rcases hfq : find_question question with _ | d
  · -- generic path
    unfold grade_single_answer
    rw [hfq]
    unfold grade_generic
    dsimp only
    have hc := calculate_confidence_mem
      (keyword_overlap answer (extract_keywords question))
      (min 1 ((answer.length : ℚ) / 50)) (10 < answer.length)
    have h0 : (0 : ℚ) ≤ 5 * (calculate_confidence
        (keyword_overlap answer (extract_keywords question))
        (min 1 ((answer.length : ℚ) / 50)) (10 < answer.length)).confidence := by
      nlinarith [hc.1]
    have h5 : 5 * (calculate_confidence
        (keyword_overlap answer (extract_keywords question))
        (min 1 ((answer.length : ℚ) / 50)) (10 < answer.length)).confidence
        ≤ ((50 : ℤ) : ℚ) / 10 := by
      push_cast
      nlinarith [hc.2]
    refine ⟨?_, ?_, ?_, ?_⟩
    · exact pyRound1_nonneg h0
    · have := pyRound1_le_of_le_tenths _ h5
      push_cast at this
      convert this using 2
      norm_num
    · intro hs
      simp at hs
    · exact fun _ => ⟨rfl, tenthQuantized_pyRound1 _⟩
  · -- bank path
    obtain ⟨kv, hmem, hkv⟩ := find_question_mem hfq
    have hmm := question_bank_max_marks kv hmem
    rw [hkv] at hmm
    have hM2 : (2 : ℚ) ≤ d.max_marks := by rcases hmm with h|h|h|h <;> rw [h] <;> norm_num
    have hM0 : (0 : ℚ) ≤ d.max_marks := by linarith
    have hhq : halfQuantized d.max_marks := by
      rcases hmm with h|h|h|h <;> rw [h]
      · exact ⟨4, by norm_num⟩
      · exact ⟨6, by norm_num⟩
      · exact ⟨8, by norm_num⟩
      · exact ⟨10, by norm_num⟩
    unfold grade_single_answer
    rw [hfq]
    dsimp only
    have hpm := calculate_partial_marks_marks d.max_marks
      (keyword_overlap answer d.keywords)
      (search answer d.correct_answers algorithm (some d.keywords)).similarity_score
      (min 1 ((answer.length : ℚ) / 100)) (d.qtype = ("math")) hM0
    refine ⟨hpm.1, hpm.2.1, fun _ => hpm.2.2 hhq, fun hnone => ?_⟩
    simp at hnone

/-- Witness for C1 as amended at the arithmetic scenario inputs: the bank
path yields half-quantized marks (`1.5`). -/
theorem C1_amended_witness :
    halfQuantized (grade_single_answer ("Calculate: 15 + 27 = ?") ("42")
      ("A* Search")).marks := by
  refine (C1_amended ("Calculate: 15 + 27 = ?") ("42") ("A* Search")).2.2.1 ?_
  with_unfolding_all exact of_decide_eq_true rfl

/-! ### C5: tie-breaking in the heuristic orderings -/

theorem astarLE_iff (x y : ℚ × String) :
    astarLE x y = true ↔ x.1 < y.1 ∨ (x.1 = y.1 ∧ x.2 ≤ y.2) := by
  simp [astarLE]

theorem astarLE_trans :
    ∀ (a b c : ℚ × String), astarLE a b → astarLE b c → astarLE a c := by
  intro a b c hab hbc
  rw [astarLE_iff] at *
  rcases hab with h1 | ⟨h1, h1'⟩ <;> rcases hbc with h2 | ⟨h2, h2'⟩
  · exact Or.inl (lt_trans h1 h2)
  · exact Or.inl (h2 ▸ h1)
  · exact Or.inl (h1 ▸ h2)
  · exact Or.inr ⟨h1.trans h2, le_trans h1' h2'⟩

theorem astarLE_total :
    ∀ (a b : ℚ × String), astarLE a b || astarLE b a := by
  intro a b
  rw [Bool.or_eq_true, astarLE_iff, astarLE_iff]
  rcases lt_trichotomy a.1 b.1 with h | h | h
  · exact Or.inl (Or.inl h)
  · rcases le_total a.2 b.2 with h2 | h2
    · exact Or.inl (Or.inr ⟨h, h2⟩)
    · exact Or.inr (Or.inr ⟨h.symm, h2⟩)
  · exact Or.inr (Or.inl h)

theorem greedyLE_iff (x y : ℚ × String) :
    greedyLE x y = true ↔ y.1 < x.1 ∨ (x.1 = y.1 ∧ y.2 ≤ x.2) := by
  simp [greedyLE]

theorem greedyLE_trans :
    ∀ (a b c : ℚ × String), greedyLE a b → greedyLE b c → greedyLE a c := by
  intro a b c hab hbc
  rw [greedyLE_iff] at *
  rcases hab with h1 | ⟨h1, h1'⟩ <;> rcases hbc with h2 | ⟨h2, h2'⟩
  · exact Or.inl (lt_trans h2 h1)
  · exact Or.inl (h2 ▸ h1)
  · exact Or.inl (h1 ▸ h2)
  · exact Or.inr ⟨h1.trans h2, le_trans h2' h1'⟩

theorem greedyLE_total :
    ∀ (a b : ℚ × String), greedyLE a b || greedyLE b a := by
  intro a b
  rw [Bool.or_eq_true, greedyLE_iff, greedyLE_iff]
  rcases lt_trichotomy a.1 b.1 with h | h | h
  · exact Or.inr (Or.inl h)
  · rcases le_total a.2 b.2 with h2 | h2
    · exact Or.inr (Or.inr ⟨h.symm, h2⟩)
    · exact Or.inl (Or.inr ⟨h, h2⟩)
  · exact Or.inl (Or.inl h)

/-- C5 counterexample: with two candidates of equal keyword-overlap
heuristic, the A* visit order reverses the bank order `["b", "a"]` to
`["a", "b"]` (ascending lexicographic tie-break from heap tuples), and the
greedy visit order reverses the bank order `["a", "b"]` to `["b", "a"]`
(descending tie-break from `sort(reverse=True)`), so neither strategy
visits equal-heuristic candidates in original bank order, and the two
strategies do not even share one tie order. -/
theorem C5_counterexample :
    keyword_overlap ("b") [("z")] = keyword_overlap ("a") [("z")] ∧
    astarOrder ("s") [("b"), ("a")] (some [("z")]) = [("a"), ("b")] ∧
    astarOrder ("s") [("b"), ("a")] (some [("z")]) ≠ [("b"), ("a")] ∧
    greedyOrder ("s") [("a"), ("b")] (some [("z")]) = [("b"), ("a")] ∧
    greedyOrder ("s") [("a"), ("b")] (some [("z")]) ≠ [("a"), ("b")] := by
  refine ⟨?_, ?_, ?_, ?_, ?_⟩
  · with_unfolding_all rfl
  · with_unfolding_all rfl
  · with_unfolding_all exact of_decide_eq_true rfl
  · with_unfolding_all rfl
  · with_unfolding_all exact of_decide_eq_true rfl

/-- C5 as amended: when all candidates share the same keyword-overlap
heuristic value, the A* strategy visits a permutation of the bank in
ascending lexicographic order of the answer strings (heap tuple
comparison falls through to the string component), and the greedy
strategy visits a permutation of the bank in descending lexicographic
order (`sort(reverse=True)` on `(h, answer)` pairs) — not the original
bank order, and opposite orders for the two strategies. -/
theorem C5_amended (student : String) (bank : List String) (kws : List String)
    (h₀ : ℚ) (hall : ∀ c ∈ bank, keyword_overlap c kws = h₀) :
    ((astarOrder student bank (some kws)).Perm bank ∧
      (astarOrder student bank (some kws)).Pairwise (fun x y => x ≤ y)) ∧
    ((greedyOrder student bank (some kws)).Perm bank ∧
      (greedyOrder student bank (some kws)).Pairwise (fun x y => y ≤ x)) := by
  constructor
  · constructor
    · show ((((bank.map (fun a => (-(keyword_overlap a kws), a))).mergeSort
        astarLE)).map Prod.snd).Perm bank
      have hp := List.mergeSort_perm
        (bank.map (fun a => (-(keyword_overlap a kws), a))) astarLE
      have h2 := hp.map Prod.snd
      simpa [List.map_map, Function.comp_def] using h2
    · show ((((bank.map (fun a => (-(keyword_overlap a kws), a))).mergeSort
        astarLE)).map Prod.snd).Pairwise (fun x y => x ≤ y)
      have hs := List.sorted_mergeSort astarLE_trans
        (by intro a b; exact astarLE_total a b)
        (bank.map (fun a => (-(keyword_overlap a kws), a)))
      rw [List.pairwise_map]
      have hmem : ∀ p ∈ (bank.map
          (fun a => (-(keyword_overlap a kws), a))).mergeSort astarLE,
          p.1 = -h₀ := by
        intro p hp
        have hpm := (List.mergeSort_perm
          (bank.map (fun a => (-(keyword_overlap a kws), a)))
          astarLE).mem_iff.mp hp
        obtain ⟨a, ha, rfl⟩ := List.mem_map.mp hpm
        simp [hall a ha]
      refine hs.imp_of_mem ?_
      intro p q hp hq hle
      rw [astarLE_iff] at hle
      rcases hle with h | ⟨_, h⟩
      · rw [hmem p hp, hmem q hq] at h; exact absurd h (lt_irrefl _)
      · exact h
  · constructor
    · show ((((bank.map (fun a => (keyword_overlap a kws, a))).mergeSort
        greedyLE)).map Prod.snd).Perm bank
      have hp := List.mergeSort_perm
        (bank.map (fun a => (keyword_overlap a kws, a))) greedyLE
      have h2 := hp.map Prod.snd
      simpa [List.map_map, Function.comp_def] using h2
    · show ((((bank.map (fun a => (keyword_overlap a kws, a))).mergeSort
        greedyLE)).map Prod.snd).Pairwise (fun x y => y ≤ x)
      have hs := List.sorted_mergeSort greedyLE_trans
        (by intro a b; exact greedyLE_total a b)
        (bank.map (fun a => (keyword_overlap a kws, a)))
      rw [List.pairwise_map]
      have hmem : ∀ p ∈ (bank.map
          (fun a => (keyword_overlap a kws, a))).mergeSort greedyLE,
          p.1 = h₀ := by
        intro p hp
        have hpm := (List.mergeSort_perm
          (bank.map (fun a => (keyword_overlap a kws, a)))
          greedyLE).mem_iff.mp hp
        obtain ⟨a, ha, rfl⟩ := List.mem_map.mp hpm
        simp [hall a ha]
      refine hs.imp_of_mem ?_
      intro p q hp hq hle
      rw [greedyLE_iff] at hle
      rcases hle with h | ⟨_, h⟩
      · rw [hmem p hp, hmem q hq] at h; exact absurd h (lt_irrefl _)
      · exact h

/-- Witness for C5 as amended: a concrete three-candidate bank with all
heuristic values equal, where A* visits ascending and greedy descending. -/
theorem C5_amended_witness :
    (∀ c ∈ [("b"), ("c"), ("a")], keyword_overlap c [("z")] = 0) ∧
    ((astarOrder ("s") [("b"), ("c"), ("a")] (some [("z")])).Perm
        [("b"), ("c"), ("a")] ∧
      (astarOrder ("s") [("b"), ("c"), ("a")] (some [("z")])).Pairwise
        (fun x y => x ≤ y)) ∧
    ((greedyOrder ("s") [("b"), ("c"), ("a")] (some [("z")])).Perm
        [("b"), ("c"), ("a")] ∧
      (greedyOrder ("s") [("b"), ("c"), ("a")] (some [("z")])).Pairwise
        (fun x y => y ≤ x)) := by
  have hall : ∀ c ∈ [("b"), ("c"), ("a")], keyword_overlap c [("z")] = 0 := by
    intro c hc
    fin_cases hc <;> with_unfolding_all rfl
  have h := C5_amended ("s") [("b"), ("c"), ("a")] [("z")] 0 hall
  exact ⟨hall, h.1, h.2⟩

/-! ### C10: successful reports have consistent counts and positive
maximum marks -/

theorem grade_single_answer_status (q a alg : String) :
    (grade_single_answer q a alg).status = ("correct") ∨
    (grade_single_answer q a alg).status = ("partial") ∨
    (grade_single_answer q a alg).status = ("incorrect") := by
  unfold grade_single_answer
  cases hfq : find_question q with
  | none =>
    unfold grade_generic
    dsimp only
    split_ifs <;> simp
  | some d =>
    dsimp only
    split_ifs <;> simp

theorem grade_single_answer_max_marks_ge (q a alg : String) :
    2 ≤ (grade_single_answer q a alg).max_marks := by
  unfold grade_single_answer
  cases hfq : find_question q with
  | none =>
    unfold grade_generic
    dsimp only
    norm_num
  | some d =>
    obtain ⟨kv, hmem, hkv⟩ := find_question_mem hfq
    have hmm := question_bank_max_marks kv hmem
    rw [hkv] at hmm
    dsimp only
    rcases hmm with h|h|h|h <;> rw [h] <;> norm_num

theorem countP_status_sum (l : List GradeResult)
    (h : ∀ r ∈ l, r.status = ("correct") ∨ r.status = ("partial") ∨
      r.status = ("incorrect")) :
    l.countP (fun r => r.status = ("correct"))
      + l.countP (fun r => r.status = ("partial"))
      + l.countP (fun r => r.status = ("incorrect")) = l.length := by
  induction l with
  | nil => simp
  | cons r rest ih =>
    have hr := h r (List.mem_cons_self r rest)
    have ih' := ih (fun x hx => h x (List.mem_cons_of_mem r hx))
    rcases hr with h1 | h1 | h1 <;> simp [List.countP_cons, h1] <;> omega

theorem sum_max_marks_pos (l : List GradeResult) (hne : l ≠ [])
    (h : ∀ r ∈ l, 2 ≤ r.max_marks) :
    0 < (l.map GradeResult.max_marks).sum := by
  cases l with
  | nil => exact absurd rfl hne
  | cons r rest =>
    have h0 : (0:ℚ) ≤ (rest.map GradeResult.max_marks).sum := by
      apply List.sum_nonneg
      intro x hx
      obtain ⟨r', hr', rfl⟩ := List.mem_map.mp hx
      have := h r' (List.mem_cons_of_mem r hr')
      linarith
    have h2 := h r (List.mem_cons_self r rest)
    simp only [List.map_cons, List.sum_cons]
    linarith

/-- C10: whenever `grade` returns a report with `success = true`, the
summary counts (correct + partial + incorrect) add up to the number of
graded questions, the summary total equals that number, every graded
question carries `max_marks ≥ 2` (the generic path contributing 5), and
`total_max_marks` is strictly positive — so the percentage computation
never divides by zero on a successful report. -/
theorem C10_success_report (text algorithm subject : String)
    (hs : (grade text algorithm subject).success = true) :
    (grade text algorithm subject).summary.correct
      + (grade text algorithm subject).summary.partial_
      + (grade text algorithm subject).summary.incorrect
      = (grade text algorithm subject).questions.length ∧
    (grade text algorithm subject).summary.total
      = (grade text algorithm subject).questions.length ∧
    (∀ r ∈ (grade text algorithm subject).questions, 2 ≤ r.max_marks) ∧
    0 < (grade text algorithm subject).total_max_marks := by
  simp only [grade] at hs ⊢
  by_cases hq : (parse_questions_answers text).isEmpty = true
  · rw [if_pos hq] at hs
    simp at hs
  · rw [if_neg hq] at hs ⊢
    dsimp only
    have hqne : parse_questions_answers text ≠ [] := by
      intro hnil
      exact hq (by simp [hnil])
    refine ⟨?_, rfl, ?_, ?_⟩
    · apply countP_status_sum
      intro r hr
      obtain ⟨p, hp, rfl⟩ := List.mem_map.mp hr
      exact grade_single_answer_status p.1 p.2 algorithm
    · intro r hr
      obtain ⟨p, hp, rfl⟩ := List.mem_map.mp hr
      exact grade_single_answer_max_marks_ge p.1 p.2 algorithm
    · apply sum_max_marks_pos
      · intro hmap
        exact hqne (List.map_eq_nil_iff.mp hmap)
      · intro r hr
        obtain ⟨p, hp, rfl⟩ := List.mem_map.mp hr
        exact grade_single_answer_max_marks_ge p.1 p.2 algorithm

/-- Witness for C10: a concrete one-question exam graded successfully. -/
theorem C10_success_report_witness :
    (grade ("Q: Calculate 15 + 27\nA: 42") ("BFS") ("ai")).success = true ∧
    ((grade ("Q: Calculate 15 + 27\nA: 42") ("BFS") ("ai")).summary.correct
      + (grade ("Q: Calculate 15 + 27\nA: 42") ("BFS") ("ai")).summary.partial_
      + (grade ("Q: Calculate 15 + 27\nA: 42") ("BFS") ("ai")).summary.incorrect
      = (grade ("Q: Calculate 15 + 27\nA: 42") ("BFS") ("ai")).questions.length ∧
    (grade ("Q: Calculate 15 + 27\nA: 42") ("BFS") ("ai")).summary.total
      = (grade ("Q: Calculate 15 + 27\nA: 42") ("BFS") ("ai")).questions.length ∧
    (∀ r ∈ (grade ("Q: Calculate 15 + 27\nA: 42") ("BFS") ("ai")).questions,
      2 ≤ r.max_marks) ∧
    0 < (grade ("Q: Calculate 15 + 27\nA: 42") ("BFS") ("ai")).total_max_marks) :=
  ⟨by with_unfolding_all rfl,
   C10_success_report ("Q: Calculate 15 + 27\nA: 42") ("BFS") ("ai")
     (by with_unfolding_all rfl)⟩

/-! ### C4: properties of the similarity metric -/

theorem njr_le (b : List Char) (i : ℕ) : njr b i ≤ i + 1 := by
  induction i with
  | zero => rw [njr]; split <;> omega
  | succ i ih => rw [njr]; split <;> omega

theorem njr_pos_eq (b : List Char) (i : ℕ)
    (h : isPopular b (b.getD i ' ') = false) : njr b i = njrP b i + 1 := by
  cases i with
  | zero => rw [njr, h]; rfl
  | succ i => rw [njr, h]; rfl

theorem njr_popular (b : List Char) (i : ℕ)
    (h : isPopular b (b.getD i ' ') = true) : njr b i = 0 := by
  cases i with
  | zero => rw [njr, h]; rfl
  | succ i => rw [njr, h]; rfl

theorem posOf_mem_iff (b : List Char) (c : Char) (j : ℕ) :
    j ∈ positionsOf b c ↔ j < b.length ∧ b.getD j ' ' = c := by
  unfold positionsOf
  simp only [List.mem_map, List.mem_filter]
  constructor
  · rintro ⟨⟨j', x⟩, ⟨hmem, hx⟩, rfl⟩
    have h := List.mk_mem_enum_iff_getElem?.mp hmem
    have hlt : j' < b.length := by
      by_contra hge
      rw [List.getElem?_eq_none (by omega)] at h
      exact Option.noConfusion h
    refine ⟨hlt, ?_⟩
    rw [List.getD_eq_getElem?_getD, h]
    simp only [decide_eq_true_eq] at hx
    simpa using hx
  · rintro ⟨hlt, hc⟩
    refine ⟨(j, c), ⟨?_, by simp⟩, rfl⟩
    rw [List.mk_mem_enum_iff_getElem?, List.getElem?_eq_getElem hlt]
    rw [List.getD_eq_getElem?_getD, List.getElem?_eq_getElem hlt] at hc
    simpa using hc

theorem posOf_sorted (b : List Char) (c : Char) :
    (positionsOf b c).Pairwise (· < ·) := by
  unfold positionsOf
  have h1 : (b.enum.filter (fun p => p.2 = c)).Sublist b.enum :=
    List.filter_sublist _
  have h2 : ((b.enum.filter (fun p => p.2 = c)).map Prod.fst).Sublist
      (b.enum.map Prod.fst) := h1.map _
  have h3 : (b.enum.map Prod.fst).Pairwise (· < ·) := by
    rw [List.enum_map_fst]
    exact List.pairwise_lt_range _
  exact h3.sublist h2

theorem j2lenGet_nil (j : ℕ) : j2lenGet [] j = 0 := rfl

theorem j2lenGet_cons (j' k j : ℕ) (m : List (ℕ × ℕ)) :
    j2lenGet ((j', k) :: m) j = if j' = j then k else j2lenGet m j := by
  unfold j2lenGet
  by_cases h : j' = j
  · rw [List.find?_cons_of_pos _ (by simp [h]), if_pos h]
  · rw [List.find?_cons_of_neg _ (by simp [h]), if_neg h]

/-- Inner row loop of `find_longest_match` on a self-comparison: every
best-block update is diagonal, and the new `j2len` map is bounded by the
non-popular run lengths. -/
theorem flmInner_diag (b : List Char) (i : ℕ) (hi : i < b.length)
    (hpop : isPopular b (b.getD i ' ') = false)
    (prev : List (ℕ × ℕ))
    (hP1 : ∀ j, j2lenGet prev j ≤ njr b j)
    (hP2 : ∀ j, j2lenGet prev j ≤ njrP b i)
    (hP3 : j2lenGet prev (i - 1) = njrP b i) :
    ∀ (js : List ℕ) (best : FlmBest) (acc : List (ℕ × ℕ)),
    (∀ j ∈ js, j ∈ positionsOf b (b.getD i ' ')) →
    js.Pairwise (· < ·) →
    best.besti = best.bestj →
    best.besti + best.bestsize ≤ b.length →
    (∀ i' < i, njr b i' ≤ best.bestsize) →
    (i ∈ js ∨ njr b i ≤ best.bestsize) →
    (∀ j, j2lenGet acc j ≤ njr b j) →
    (∀ j, j2lenGet acc j ≤ njr b i) →
    (i ∈ js ∨ j2lenGet acc i = njr b i) →
    ((flmInner i 0 b.length prev js best acc).1.besti
        = (flmInner i 0 b.length prev js best acc).1.bestj) ∧
    ((flmInner i 0 b.length prev js best acc).1.besti
        + (flmInner i 0 b.length prev js best acc).1.bestsize ≤ b.length) ∧
    (∀ i' < i, njr b i' ≤ (flmInner i 0 b.length prev js best acc).1.bestsize) ∧
    (njr b i ≤ (flmInner i 0 b.length prev js best acc).1.bestsize) ∧
    (∀ j, j2lenGet (flmInner i 0 b.length prev js best acc).2 j ≤ njr b j) ∧
    (∀ j, j2lenGet (flmInner i 0 b.length prev js best acc).2 j ≤ njr b i) ∧
    (j2lenGet (flmInner i 0 b.length prev js best acc).2 i = njr b i) := by
  intro js
  induction js with
  | nil =>
    intro best acc _ _ hB2 hB3 hB1 hdisj hA1 hA2 hA3
    rcases hdisj with h | h
    · exact absurd h (List.not_mem_nil i)
    rcases hA3 with h3 | h3
    · exact absurd h3 (List.not_mem_nil i)
    exact ⟨hB2, hB3, hB1, h, hA1, hA2, h3⟩
  | cons j rest ih =>
    intro best acc hocc hsort hB2 hB3 hB1 hdisj hA1 hA2 hA3
    have hjocc : j ∈ positionsOf b (b.getD i ' ') :=
      hocc j (List.mem_cons_self j rest)
    have hjlt : j < b.length := ((posOf_mem_iff b _ j).mp hjocc).1
    have hjch : b.getD j ' ' = b.getD i ' ' := ((posOf_mem_iff b _ j).mp hjocc).2
    have hjpop : isPopular b (b.getD j ' ') = false := by rw [hjch]; exact hpop
    have hnjr_i : njr b i = njrP b i + 1 := njr_pos_eq b i hpop
    have hnjr_j : njr b j = njrP b j + 1 := njr_pos_eq b j hjpop
    set K := (if j = 0 then 0 else j2lenGet prev (j - 1)) + 1 with hK
    have hkj : K ≤ njr b j := by
      rw [hK]
      cases j with
      | zero => rw [if_pos rfl, hnjr_j]; simp [njrP]
      | succ j' =>
        rw [if_neg (Nat.succ_ne_zero j')]
        have h1 := hP1 j'
        have h2 : njrP b (j' + 1) = njr b j' := rfl
        simp only [Nat.succ_sub_one]
        omega
    have hki : K ≤ njr b i := by
      rw [hK]
      cases j with
      | zero => rw [if_pos rfl]; omega
      | succ j' =>
        rw [if_neg (Nat.succ_ne_zero j')]
        have h1 := hP2 j'
        simp only [Nat.succ_sub_one]
        omega
    have hkeqi : j = i → K = njr b i := by
      intro hji
      subst hji
      rw [hK]
      cases j with
      | zero =>
        rw [if_pos rfl]
        simp [njrP] at hnjr_i
        omega
      | succ j' =>
        rw [if_neg (Nat.succ_ne_zero j')]
        simp only [Nat.succ_sub_one] at hP3 ⊢
        rw [hP3]
        omega
    have hstep : flmInner i 0 b.length prev (j :: rest) best acc
        = flmInner i 0 b.length prev rest
            (if best.bestsize < K then ⟨i + 1 - K, j + 1 - K, K⟩ else best)
            ((j, K) :: acc) := by
      rw [flmInner]
      rw [if_neg (by omega : ¬ j < (0 : ℕ)), if_neg (by omega : ¬ b.length ≤ j)]
    have hoccrest : ∀ x ∈ rest, x ∈ positionsOf b (b.getD i ' ') :=
      fun x hx => hocc x (List.mem_cons_of_mem j hx)
    rcases lt_trichotomy j i with hlt | heq | hgt
    · -- j < i : strictly smaller run already dominated, no update
      have hnoup : ¬ best.bestsize < K := by
        have h1 : njr b j ≤ best.bestsize := hB1 j hlt
        omega
      rw [hstep, if_neg hnoup]
      refine ih _ _ hoccrest hsort.of_cons hB2 hB3 hB1 ?_ ?_ ?_ ?_
      · rcases hdisj with h | h
        · rcases List.mem_cons.mp h with h1 | h1
          · omega
          · exact Or.inl h1
        · exact Or.inr h
      · intro x
        rw [j2lenGet_cons]
        split
        · rename_i hjx; rw [← hjx]; exact hkj
        · exact hA1 x
      · intro x
        rw [j2lenGet_cons]
        split
        · exact hki
        · exact hA2 x
      · rcases hA3 with h | h
        · rcases List.mem_cons.mp h with h1 | h1
          · omega
          · exact Or.inl h1
        · refine Or.inr ?_
          rw [j2lenGet_cons, if_neg (by omega)]
          exact h
    · -- j = i : the diagonal candidate, value exactly njr b i
      have hkeq : K = njr b i := hkeqi heq
      subst heq
      have hKle : K ≤ j + 1 := le_trans (le_of_eq hkeq) (njr_le b j)
      have hA3' : j2lenGet ((j, K) :: acc) j = njr b j := by
        rw [j2lenGet_cons, if_pos rfl]; exact hkeq
      by_cases hup : best.bestsize < K
      · rw [hstep, if_pos hup]
        refine ih _ _ hoccrest hsort.of_cons rfl ?_ ?_ ?_ ?_ ?_ ?_
        · show j + 1 - K + K ≤ b.length
          omega
        · intro i' hi'
          show njr b i' ≤ K
          have := hB1 i' hi'
          omega
        · refine Or.inr ?_
          show njr b j ≤ K
          omega
        · intro x
          rw [j2lenGet_cons]
          split
          · rename_i hjx; rw [← hjx]; exact hkj
          · exact hA1 x
        · intro x
          rw [j2lenGet_cons]
          split
          · exact hki
          · exact hA2 x
        · exact Or.inr hA3'
      · rw [hstep, if_neg hup]
        refine ih _ _ hoccrest hsort.of_cons hB2 hB3 hB1
          (Or.inr (by omega)) ?_ ?_ (Or.inr hA3')
        · intro x
          rw [j2lenGet_cons]
          split
          · rename_i hjx; rw [← hjx]; exact hkj
          · exact hA1 x
        · intro x
          rw [j2lenGet_cons]
          split
          · exact hki
          · exact hA2 x
    · -- i < j : the diagonal was already processed, no update possible
      have hinotrest : i ∉ rest := by
        intro hmem
        have := List.rel_of_pairwise_cons hsort hmem
        omega
      have hni : njr b i ≤ best.bestsize := by
        rcases hdisj with h | h
        · rcases List.mem_cons.mp h with h1 | h1
          · omega
          · exact absurd h1 hinotrest
        · exact h
      have hnoup : ¬ best.bestsize < K := by omega
      have hacc : j2lenGet acc i = njr b i := by
        rcases hA3 with h | h
        · rcases List.mem_cons.mp h with h1 | h1
          · omega
          · exact absurd h1 hinotrest
        · exact h
      rw [hstep, if_neg hnoup]
      refine ih _ _ hoccrest hsort.of_cons hB2 hB3 hB1 (Or.inr hni) ?_ ?_ ?_
      · intro x
        rw [j2lenGet_cons]
        split
        · rename_i hjx; rw [← hjx]; exact hkj
        · exact hA1 x
      · intro x
        rw [j2lenGet_cons]
        split
        · exact hki
        · exact hA2 x
      · refine Or.inr ?_
        rw [j2lenGet_cons, if_neg (by omega)]
        exact hacc

/-- Outer DP loop of `find_longest_match` on a self-comparison: the final
best block is diagonal and fits in the sequence. -/
theorem flmLoop_diag (b : List Char) :
    ∀ (fuel i : ℕ) (prev : List (ℕ × ℕ)) (best : FlmBest),
    i + fuel ≤ b.length →
    (∀ j, j2lenGet prev j ≤ njr b j) →
    (∀ j, j2lenGet prev j ≤ njrP b i) →
    (j2lenGet prev (i - 1) = njrP b i) →
    best.besti = best.bestj →
    best.besti + best.bestsize ≤ b.length →
    (∀ i' < i, njr b i' ≤ best.bestsize) →
    ((flmLoop b (b2jGet b) 0 b.length fuel i prev best).besti
        = (flmLoop b (b2jGet b) 0 b.length fuel i prev best).bestj) ∧
    ((flmLoop b (b2jGet b) 0 b.length fuel i prev best).besti
        + (flmLoop b (b2jGet b) 0 b.length fuel i prev best).bestsize
        ≤ b.length) := by
  intro fuel
  induction fuel with
  | zero =>
    intro i prev best _ _ _ _ hB2 hB3 _
    exact ⟨hB2, hB3⟩
  | succ fuel ih =>
    intro i prev best hif hP1 hP2 hP3 hB2 hB3 hB1
    have hi : i < b.length := by omega
    rw [flmLoop]
    try dsimp only
    cases hpop : isPopular b (b.getD i ' ') with
    | true =>
      have hempty : b2jGet b (b.getD i ' ') = [] := by
        unfold b2jGet; rw [if_pos hpop]
      rw [hempty]
      simp only [flmInner]
      have hnjri : njr b i = 0 := njr_popular b i hpop
      apply ih (i + 1) [] best (by omega)
      · intro j; rw [j2lenGet_nil]; exact Nat.zero_le _
      · intro j; rw [j2lenGet_nil]
        show 0 ≤ njr b i
        exact Nat.zero_le _
      · rw [j2lenGet_nil]
        show (0 : ℕ) = njr b i
        omega
      · exact hB2
      · exact hB3
      · intro i' hi'
        rcases Nat.lt_succ_iff_lt_or_eq.mp hi' with h | h
        · exact hB1 i' h
        · subst h; omega
    | false =>
      have hget : b2jGet b (b.getD i ' ') = positionsOf b (b.getD i ' ') := by
        unfold b2jGet
        rw [if_neg (by rw [hpop]; exact Bool.false_ne_true)]
      rw [hget]
      have hmemi : i ∈ positionsOf b (b.getD i ' ') :=
        (posOf_mem_iff b _ i).mpr ⟨hi, rfl⟩
      have hinner := flmInner_diag b i hi hpop prev hP1 hP2 hP3
        (positionsOf b (b.getD i ' ')) best []
        (fun x hx => hx) (posOf_sorted b _) hB2 hB3 hB1 (Or.inl hmemi)
        (fun j => by rw [j2lenGet_nil]; exact Nat.zero_le _)
        (fun j => by rw [j2lenGet_nil]; exact Nat.zero_le _)
        (Or.inl hmemi)
      obtain ⟨c1, c2, c3, c4, c5, c6, c7⟩ := hinner
      apply ih (i + 1) _ _ (by omega) c5
      · intro j
        show j2lenGet _ j ≤ njr b i
        exact c6 j
      · show j2lenGet _ i = njr b i
        exact c7
      · exact c1
      · exact c2
      · intro i' hi'
        rcases Nat.lt_succ_iff_lt_or_eq.mp hi' with h | h
        · exact c3 i' h
        · subst h; exact c4

theorem flmExtLeft_diag (b : List Char) :
    ∀ (fuel p s : ℕ), p ≤ fuel →
    flmExtLeft b b (fun _ => false) false 0 0 fuel ⟨p, p, s⟩ = ⟨0, 0, s + p⟩ := by
  intro fuel
  induction fuel with
  | zero =>
    intro p s hp
    have : p = 0 := by omega
    subst this
    simp [flmExtLeft]
  | succ fuel ih =>
    intro p s hp
    cases p with
    | zero =>
      rw [flmExtLeft]
      rw [if_neg (by simp)]
      simp
    | succ p' =>
      rw [flmExtLeft]
      rw [if_pos ⟨Nat.succ_pos p', Nat.succ_pos p', rfl, rfl⟩]
      show flmExtLeft b b (fun _ => false) false 0 0 fuel ⟨p', p', s + 1⟩ = _
      rw [ih p' (s + 1) (by omega)]
      congr 1
      omega

theorem flmExtRight_diag (b : List Char) :
    ∀ (fuel m : ℕ), m ≤ b.length → b.length - m ≤ fuel →
    flmExtRight b b (fun _ => false) false b.length b.length fuel ⟨0, 0, m⟩
      = ⟨0, 0, b.length⟩ := by
  intro fuel
  induction fuel with
  | zero =>
    intro m hm hf
    have : m = b.length := by omega
    subst this
    rfl
  | succ fuel ih =>
    intro m hm hf
    by_cases hmn : m = b.length
    · subst hmn
      rw [flmExtRight]
      rw [if_neg (by simp)]
    · rw [flmExtRight]
      rw [if_pos ⟨(by omega : 0 + m < b.length), (by omega : 0 + m < b.length),
        rfl, rfl⟩]
      show flmExtRight b b (fun _ => false) false b.length b.length fuel
        ⟨0, 0, m + 1⟩ = _
      exact ih (m + 1) (by omega) (by omega)

theorem flmExtLeft_noop (a b : List Char) (alo blo : ℕ) :
    ∀ (fuel : ℕ) (best : FlmBest),
    flmExtLeft a b (fun _ => false) true alo blo fuel best = best := by
  intro fuel
  induction fuel with
  | zero => intro best; rfl
  | succ fuel ih =>
    intro best
    rw [flmExtLeft]
    rw [if_neg (by simp)]

theorem flmExtRight_noop (a b : List Char) (ahi bhi : ℕ) :
    ∀ (fuel : ℕ) (best : FlmBest),
    flmExtRight a b (fun _ => false) true ahi bhi fuel best = best := by
  intro fuel
  induction fuel with
  | zero => intro best; rfl
  | succ fuel ih =>
    intro best
    rw [flmExtRight]
    rw [if_neg (by simp)]

/-- `find_longest_match` over the full region of a self-comparison returns
the whole sequence as one block. -/
theorem flm_self (b : List Char) :
    findLongestMatch b b (fun _ => false) (b2jGet b) 0 b.length 0 b.length
      = ⟨0, 0, b.length⟩ := by
  unfold findLongestMatch
  try dsimp only
  simp only [Nat.sub_zero]
  have h0 := flmLoop_diag b b.length 0 [] ⟨0, 0, 0⟩ (by omega)
    (fun j => by rw [j2lenGet_nil]; exact Nat.zero_le _)
    (fun j => by rw [j2lenGet_nil]; exact Nat.zero_le _)
    (by rw [j2lenGet_nil]; rfl)
    rfl (by simp) (fun i' hi' => absurd hi' (Nat.not_lt_zero i'))
  rcases hB : flmLoop b (b2jGet b) 0 b.length b.length 0 [] ⟨0, 0, 0⟩
    with ⟨p, q, s⟩
  rw [hB] at h0
  obtain ⟨hd, hbd⟩ := h0
  dsimp only at hd hbd
  subst hd
  dsimp only
  rw [flmExtLeft_diag b p p s le_rfl]
  dsimp only
  rw [flmExtRight_diag b (b.length - (0 + (s + p))) (s + p) (by omega) (by omega)]
  dsimp only
  rw [flmExtLeft_noop]
  dsimp only
  rw [flmExtRight_noop]

/-- The matching-blocks total of a nonempty self-comparison is the whole
length. -/
theorem regionMatches_self (b : List Char) (fuel : ℕ) (hb : b ≠ []) :
    regionMatches b b (fun _ => false) (b2jGet b) (fuel + 1) 0 b.length 0 b.length
      = b.length := by
  have hn : b.length ≠ 0 := by simpa [List.length_eq_zero] using hb
  rw [regionMatches]
  try dsimp only
  rw [flm_self]
  try dsimp only
  rw [if_neg hn, if_neg (by omega), if_neg (by omega)]
  omega

/-- `SequenceMatcher.ratio()` of a sequence with itself is `1`. -/
theorem seqRatio_self (b : List Char) : seqRatio b b = 1 := by
  by_cases hb : b = []
  · subst hb; rfl
  · have hn : b.length ≠ 0 := by simpa [List.length_eq_zero] using hb
    unfold seqRatio
    try dsimp only
    rw [if_neg (by omega)]
    rw [regionMatches_self b (b.length + b.length) hb]
    have hpos : (0 : ℚ) < (b.length : ℚ) := by
      exact_mod_cast Nat.pos_of_ne_zero hn
    rw [div_eq_one_iff_eq (by linarith)]
    ring

/-! Validity of the matcher: every reported block is a genuine common
substring lying inside its region.  Used for the converse direction. -/



theorem b2jGet_mem (b : List Char) (c : Char) (j : ℕ) (h : j ∈ b2jGet b c) :
    b.getD j ' ' = c := by
  unfold b2jGet at h
  split at h
  · exact absurd h (List.not_mem_nil j)
  · exact ((posOf_mem_iff b c j).mp h).2

theorem flmInner_valid (a b : List Char) (alo ahi blo bhi i : ℕ)
    (hai : alo ≤ i) (hia : i < ahi)
    (prev : List (ℕ × ℕ))
    (hp1 : ∀ j, j2lenGet prev j ≤ j + 1 - blo)
    (hp2 : ∀ j, j2lenGet prev j ≤ i - alo)
    (hp3 : ∀ j t, t < j2lenGet prev j →
      a.getD (i - 1 - t) ' ' = b.getD (j - t) ' ') :
    ∀ (js : List ℕ) (best : FlmBest) (acc : List (ℕ × ℕ)),
    (∀ j ∈ js, b.getD j ' ' = a.getD i ' ') →
    FlmValid a b alo ahi blo bhi best →
    (∀ j, j2lenGet acc j ≤ j + 1 - blo) →
    (∀ j, j2lenGet acc j ≤ i + 1 - alo) →
    (∀ j t, t < j2lenGet acc j →
      a.getD (i - t) ' ' = b.getD (j - t) ' ') →
    FlmValid a b alo ahi blo bhi (flmInner i blo bhi prev js best acc).1 ∧
    (∀ j, j2lenGet (flmInner i blo bhi prev js best acc).2 j ≤ j + 1 - blo) ∧
    (∀ j, j2lenGet (flmInner i blo bhi prev js best acc).2 j ≤ i + 1 - alo) ∧
    (∀ j t, t < j2lenGet (flmInner i blo bhi prev js best acc).2 j →
      a.getD (i - t) ' ' = b.getD (j - t) ' ') := by
  intro js
  induction js with
  | nil =>
    intro best acc _ hbv ha1 ha2 ha3
    exact ⟨hbv, ha1, ha2, ha3⟩
  | cons j rest ih =>
    intro best acc hocc hbv ha1 ha2 ha3
    have hjocc : b.getD j ' ' = a.getD i ' ' := hocc j (List.mem_cons_self j rest)
    have hoccrest : ∀ x ∈ rest, b.getD x ' ' = a.getD i ' ' :=
      fun x hx => hocc x (List.mem_cons_of_mem j hx)
    rw [flmInner]
    by_cases hskip : j < blo
    · rw [if_pos hskip]
      exact ih best acc hoccrest hbv ha1 ha2 ha3
    rw [if_neg hskip]
    by_cases hbreak : bhi ≤ j
    · rw [if_pos hbreak]
      exact ⟨hbv, ha1, ha2, ha3⟩
    rw [if_neg hbreak]
    have hjblo : blo ≤ j := by omega
    have hjbhi : j < bhi := by omega
    set K := (if j = 0 then 0 else j2lenGet prev (j - 1)) + 1 with hK
    try dsimp only
    have hk1 : K ≤ j + 1 - blo := by
      rw [hK]
      cases j with
      | zero => rw [if_pos rfl]; omega
      | succ j' =>
        rw [if_neg (Nat.succ_ne_zero j')]
        have := hp1 j'
        simp only [Nat.succ_sub_one]
        omega
    have hk2 : K ≤ i + 1 - alo := by
      rw [hK]
      cases j with
      | zero => rw [if_pos rfl]; omega
      | succ j' =>
        rw [if_neg (Nat.succ_ne_zero j')]
        have := hp2 j'
        simp only [Nat.succ_sub_one]
        omega
    have hk3 : ∀ t, t < K → a.getD (i - t) ' ' = b.getD (j - t) ' ' := by
      intro t ht
      cases t with
      | zero =>
        simpa using hjocc.symm
      | succ t' =>
        have hKgt : 1 < K := by omega
        have hjne : ¬ j = 0 := by
          intro hj0
          rw [hK, if_pos hj0] at hKgt
          omega
        obtain ⟨j', rfl⟩ := Nat.exists_eq_succ_of_ne_zero hjne
        have ht' : t' < j2lenGet prev j' := by
          rw [hK, if_neg (Nat.succ_ne_zero j')] at ht
          simpa [Nat.succ_sub_one] using ht
        have := hp3 j' t' ht'
        have e1 : i - (t' + 1) = i - 1 - t' := by omega
        have e2 : j' + 1 - (t' + 1) = j' - t' := by omega
        rw [e1, e2]
        exact this
    have hnew1 : ∀ x, j2lenGet ((j, K) :: acc) x ≤ x + 1 - blo := by
      intro x
      rw [j2lenGet_cons]
      split
      · rename_i hjx; rw [← hjx]; exact hk1
      · exact ha1 x
    have hnew2 : ∀ x, j2lenGet ((j, K) :: acc) x ≤ i + 1 - alo := by
      intro x
      rw [j2lenGet_cons]
      split
      · exact hk2
      · exact ha2 x
    have hnew3 : ∀ x t, t < j2lenGet ((j, K) :: acc) x →
        a.getD (i - t) ' ' = b.getD (x - t) ' ' := by
      intro x t
      rw [j2lenGet_cons]
      split
      · rename_i hjx
        rw [← hjx]
        exact hk3 t
      · exact ha3 x t
    by_cases hup : best.bestsize < K
    · rw [if_pos hup]
      refine ih _ _ hoccrest ⟨?_, ?_, ?_, ?_, ?_⟩ hnew1 hnew2 hnew3
      · show alo ≤ i + 1 - K
        omega
      · show i + 1 - K + K ≤ ahi
        omega
      · show blo ≤ j + 1 - K
        omega
      · show j + 1 - K + K ≤ bhi
        omega
      · intro t ht
        show a.getD (i + 1 - K + t) ' ' = b.getD (j + 1 - K + t) ' '
        have ht' : t < K := ht
        have e1 : i + 1 - K + t = i - (K - 1 - t) := by omega
        have e2 : j + 1 - K + t = j - (K - 1 - t) := by omega
        rw [e1, e2]
        exact hk3 (K - 1 - t) (by omega)
    · rw [if_neg hup]
      exact ih _ _ hoccrest hbv hnew1 hnew2 hnew3

theorem flmLoop_valid (a b : List Char) (alo ahi blo bhi : ℕ) :
    ∀ (fuel i : ℕ) (prev : List (ℕ × ℕ)) (best : FlmBest),
    alo ≤ i → i + fuel ≤ ahi →
    (∀ j, j2lenGet prev j ≤ j + 1 - blo) →
    (∀ j, j2lenGet prev j ≤ i - alo) →
    (∀ j t, t < j2lenGet prev j →
      a.getD (i - 1 - t) ' ' = b.getD (j - t) ' ') →
    FlmValid a b alo ahi blo bhi best →
    FlmValid a b alo ahi blo bhi
      (flmLoop a (b2jGet b) blo bhi fuel i prev best) := by
  intro fuel
  induction fuel with
  | zero =>
    intro i prev best _ _ _ _ _ hbv
    exact hbv
  | succ fuel ih =>
    intro i prev best hai hia hp1 hp2 hp3 hbv
    rw [flmLoop]
    try dsimp only
    have hstep := flmInner_valid a b alo ahi blo bhi i hai (by omega)
      prev hp1 hp2 hp3 (b2jGet b (a.getD i ' ')) best []
      (fun x hx => b2jGet_mem b _ x hx) hbv
      (fun j => by rw [j2lenGet_nil]; exact Nat.zero_le _)
      (fun j => by rw [j2lenGet_nil]; exact Nat.zero_le _)
      (fun j t ht => by rw [j2lenGet_nil] at ht; omega)
    obtain ⟨c0, c1, c2, c3⟩ := hstep
    exact ih (i + 1) _ _ (by omega) (by omega) c1
      (fun j => c2 j) (fun j t ht => c3 j t ht) c0

theorem flmExtLeft_valid (a b : List Char) (junk : Char → Bool) (w : Bool)
    (alo ahi blo bhi : ℕ) :
    ∀ (fuel : ℕ) (best : FlmBest),
    FlmValid a b alo ahi blo bhi best →
    FlmValid a b alo ahi blo bhi
      (flmExtLeft a b junk w alo blo fuel best) := by
  intro fuel
  induction fuel with
  | zero => intro best hbv; exact hbv
  | succ fuel ih =>
    intro best hbv
    obtain ⟨h1, h2, h3, h4, h5⟩ := hbv
    rw [flmExtLeft]
    by_cases hcond : alo < best.besti ∧ blo < best.bestj ∧
        junk (b.getD (best.bestj - 1) ' ') = w ∧
        a.getD (best.besti - 1) ' ' = b.getD (best.bestj - 1) ' '
    · rw [if_pos hcond]
      refine ih _ ⟨?_, ?_, ?_, ?_, ?_⟩
      · show alo ≤ best.besti - 1
        omega
      · show best.besti - 1 + (best.bestsize + 1) ≤ ahi
        omega
      · show blo ≤ best.bestj - 1
        omega
      · show best.bestj - 1 + (best.bestsize + 1) ≤ bhi
        omega
      · intro t ht
        show a.getD (best.besti - 1 + t) ' ' = b.getD (best.bestj - 1 + t) ' '
        cases t with
        | zero =>
          simpa using hcond.2.2.2
        | succ t' =>
          have e1 : best.besti - 1 + (t' + 1) = best.besti + t' := by omega
          have e2 : best.bestj - 1 + (t' + 1) = best.bestj + t' := by omega
          rw [e1, e2]
          exact h5 t' (by
            have : t' + 1 < best.bestsize + 1 := ht
            omega)
    · rw [if_neg hcond]
      exact ⟨h1, h2, h3, h4, h5⟩

theorem flmExtRight_valid (a b : List Char) (junk : Char → Bool) (w : Bool)
    (alo ahi blo bhi : ℕ) :
    ∀ (fuel : ℕ) (best : FlmBest),
    FlmValid a b alo ahi blo bhi best →
    FlmValid a b alo ahi blo bhi
      (flmExtRight a b junk w ahi bhi fuel best) := by
  intro fuel
  induction fuel with
  | zero => intro best hbv; exact hbv
  | succ fuel ih =>
    intro best hbv
    obtain ⟨h1, h2, h3, h4, h5⟩ := hbv
    rw [flmExtRight]
    by_cases hcond : best.besti + best.bestsize < ahi ∧
        best.bestj + best.bestsize < bhi ∧
        junk (b.getD (best.bestj + best.bestsize) ' ') = w ∧
        a.getD (best.besti + best.bestsize) ' '
          = b.getD (best.bestj + best.bestsize) ' '
    · rw [if_pos hcond]
      refine ih _ ⟨h1, ?_, h3, ?_, ?_⟩
      · show best.besti + (best.bestsize + 1) ≤ ahi
        omega
      · show best.bestj + (best.bestsize + 1) ≤ bhi
        omega
      · intro t ht
        show a.getD (best.besti + t) ' ' = b.getD (best.bestj + t) ' '
        by_cases htlast : t = best.bestsize
        · subst htlast
          exact hcond.2.2.2
        · exact h5 t (by
            have : t < best.bestsize + 1 := ht
            omega)
    · rw [if_neg hcond]
      exact ⟨h1, h2, h3, h4, h5⟩

theorem flm_valid (a b : List Char) (alo ahi blo bhi : ℕ)
    (ha : alo ≤ ahi) (hb : blo ≤ bhi) :
    FlmValid a b alo ahi blo bhi
      (findLongestMatch a b (fun _ => false) (b2jGet b) alo ahi blo bhi) := by
  unfold findLongestMatch
  try dsimp only
  apply flmExtRight_valid
  apply flmExtLeft_valid
  apply flmExtRight_valid
  apply flmExtLeft_valid
  apply flmLoop_valid a b alo ahi blo bhi (ahi - alo) alo [] ⟨alo, blo, 0⟩
    le_rfl (by omega)
    (fun j => by rw [j2lenGet_nil]; exact Nat.zero_le _)
    (fun j => by rw [j2lenGet_nil]; exact Nat.zero_le _)
    (fun j t ht => by rw [j2lenGet_nil] at ht; omega)
  refine ⟨le_rfl, ?_, le_rfl, ?_, ?_⟩
  · show alo + 0 ≤ ahi
    omega
  · show blo + 0 ≤ bhi
    omega
  · intro t ht
    exact absurd (show t < 0 from ht) (by omega)

theorem regionMatches_le (a b : List Char) :
    ∀ (fuel alo ahi blo bhi : ℕ), alo ≤ ahi → blo ≤ bhi →
    regionMatches a b (fun _ => false) (b2jGet b) fuel alo ahi blo bhi
      ≤ ahi - alo ∧
    regionMatches a b (fun _ => false) (b2jGet b) fuel alo ahi blo bhi
      ≤ bhi - blo := by
  intro fuel
  induction fuel with
  | zero =>
    intro alo ahi blo bhi _ _
    rw [regionMatches]
    omega
  | succ fuel ih =>
    intro alo ahi blo bhi ha hb
    rw [regionMatches]
    try dsimp only
    set B := findLongestMatch a b (fun _ => false) (b2jGet b) alo ahi blo bhi
      with hBdef
    by_cases h0 : B.bestsize = 0
    · rw [if_pos h0]
      omega
    rw [if_neg h0]
    obtain ⟨hv1, hv2, hv3, hv4, _⟩ := flm_valid a b alo ahi blo bhi ha hb
    rw [← hBdef] at hv1 hv2 hv3 hv4
    have hLb : (if alo < B.besti ∧ blo < B.bestj then
        regionMatches a b (fun _ => false) (b2jGet b) fuel alo B.besti blo
          B.bestj else 0) ≤ B.besti - alo ∧
        (if alo < B.besti ∧ blo < B.bestj then
        regionMatches a b (fun _ => false) (b2jGet b) fuel alo B.besti blo
          B.bestj else 0) ≤ B.bestj - blo := by
      split
      · exact ih alo B.besti blo B.bestj hv1 hv3
      · omega
    have hRb : (if B.besti + B.bestsize < ahi ∧ B.bestj + B.bestsize < bhi then
        regionMatches a b (fun _ => false) (b2jGet b) fuel
          (B.besti + B.bestsize) ahi (B.bestj + B.bestsize) bhi else 0)
          ≤ ahi - (B.besti + B.bestsize) ∧
        (if B.besti + B.bestsize < ahi ∧ B.bestj + B.bestsize < bhi then
        regionMatches a b (fun _ => false) (b2jGet b) fuel
          (B.besti + B.bestsize) ahi (B.bestj + B.bestsize) bhi else 0)
          ≤ bhi - (B.bestj + B.bestsize) := by
      split
      · exact ih (B.besti + B.bestsize) ahi (B.bestj + B.bestsize) bhi
          (by omega) (by omega)
      · omega
    omega

theorem regionMatches_full (a b : List Char) :
    ∀ (fuel alo ahi blo bhi : ℕ), alo ≤ ahi → blo ≤ bhi →
    regionMatches a b (fun _ => false) (b2jGet b) fuel alo ahi blo bhi
      = ahi - alo →
    regionMatches a b (fun _ => false) (b2jGet b) fuel alo ahi blo bhi
      = bhi - blo →
    ∀ t, t < ahi - alo → a.getD (alo + t) ' ' = b.getD (blo + t) ' ' := by
  intro fuel
  induction fuel with
  | zero =>
    intro alo ahi blo bhi _ _ hEa _ t ht
    rw [regionMatches] at hEa
    omega
  | succ fuel ih =>
    intro alo ahi blo bhi ha hb hEa hEb
    rw [regionMatches] at hEa hEb
    try dsimp only at hEa hEb
    set B := findLongestMatch a b (fun _ => false) (b2jGet b) alo ahi blo bhi
      with hBdef
    by_cases h0 : B.bestsize = 0
    · rw [if_pos h0] at hEa
      intro t ht
      omega
    rw [if_neg h0] at hEa hEb
    obtain ⟨hv1, hv2, hv3, hv4, hv5⟩ := flm_valid a b alo ahi blo bhi ha hb
    rw [← hBdef] at hv1 hv2 hv3 hv4 hv5
    set L := (if alo < B.besti ∧ blo < B.bestj then
      regionMatches a b (fun _ => false) (b2jGet b) fuel alo B.besti blo
        B.bestj else 0) with hLdef
    set R := (if B.besti + B.bestsize < ahi ∧ B.bestj + B.bestsize < bhi then
      regionMatches a b (fun _ => false) (b2jGet b) fuel
        (B.besti + B.bestsize) ahi (B.bestj + B.bestsize) bhi else 0)
      with hRdef
    have hLb : L ≤ B.besti - alo ∧ L ≤ B.bestj - blo := by
      rw [hLdef]
      split
      · exact regionMatches_le a b fuel alo B.besti blo B.bestj hv1 hv3
      · omega
    have hRb : R ≤ ahi - (B.besti + B.bestsize) ∧
        R ≤ bhi - (B.bestj + B.bestsize) := by
      rw [hRdef]
      split
      · exact regionMatches_le a b fuel (B.besti + B.bestsize) ahi
          (B.bestj + B.bestsize) bhi (by omega) (by omega)
      · omega
    have hL1 : L = B.besti - alo := by omega
    have hL2 : L = B.bestj - blo := by omega
    have hR1 : R = ahi - (B.besti + B.bestsize) := by omega
    have hR2 : R = bhi - (B.bestj + B.bestsize) := by omega
    have keyL : ∀ t, t < B.besti - alo →
        a.getD (alo + t) ' ' = b.getD (blo + t) ' ' := by
      intro t ht
      have hLpos : 0 < L := by omega
      have hcond : alo < B.besti ∧ blo < B.bestj := by
        by_contra hc
        rw [hLdef, if_neg hc] at hLpos
        omega
      have hrec : regionMatches a b (fun _ => false) (b2jGet b) fuel alo
          B.besti blo B.bestj = L := by
        rw [hLdef, if_pos hcond]
      exact ih alo B.besti blo B.bestj hv1 hv3
        (by rw [hrec]; omega) (by rw [hrec]; omega) t ht
    have keyR : ∀ t, t < ahi - (B.besti + B.bestsize) →
        a.getD (B.besti + B.bestsize + t) ' '
          = b.getD (B.bestj + B.bestsize + t) ' ' := by
      intro t ht
      have hRpos : 0 < R := by omega
      have hcond : B.besti + B.bestsize < ahi ∧ B.bestj + B.bestsize < bhi := by
        by_contra hc
        rw [hRdef, if_neg hc] at hRpos
        omega
      have hrec : regionMatches a b (fun _ => false) (b2jGet b) fuel
          (B.besti + B.bestsize) ahi (B.bestj + B.bestsize) bhi = R := by
        rw [hRdef, if_pos hcond]
      exact ih (B.besti + B.bestsize) ahi (B.bestj + B.bestsize) bhi
        (by omega) (by omega) (by rw [hrec]; omega) (by rw [hrec]; omega) t ht
    intro t ht
    by_cases ht1 : t < B.besti - alo
    · exact keyL t ht1
    by_cases ht2 : t < B.besti - alo + B.bestsize
    · have e1 : alo + t = B.besti + (t - (B.besti - alo)) := by omega
      have e2 : blo + t = B.bestj + (t - (B.besti - alo)) := by omega
      rw [e1, e2]
      exact hv5 (t - (B.besti - alo)) (by omega)
    · have e1 : alo + t = B.besti + B.bestsize
          + (t - (B.besti - alo) - B.bestsize) := by omega
      have e2 : blo + t = B.bestj + B.bestsize
          + (t - (B.besti - alo) - B.bestsize) := by omega
      rw [e1, e2]
      exact keyR (t - (B.besti - alo) - B.bestsize) (by omega)

/-- `SequenceMatcher.ratio()` reaches `1` only on equal sequences. -/
theorem seqRatio_eq_one (a b : List Char) (h : seqRatio a b = 1) : a = b := by
  unfold seqRatio at h
  try dsimp only at h
  by_cases h0 : a.length + b.length = 0
  · have ha : a = [] := List.length_eq_zero.mp (by omega)
    have hb : b = [] := List.length_eq_zero.mp (by omega)
    rw [ha, hb]
  · rw [if_neg h0] at h
    have hpos : 0 < a.length + b.length := Nat.pos_of_ne_zero h0
    have hden : ((a.length : ℚ) + (b.length : ℚ)) ≠ 0 := by
      have : (0 : ℚ) < (a.length : ℚ) + (b.length : ℚ) := by exact_mod_cast hpos
      linarith
    rw [div_eq_one_iff_eq hden] at h
    have hnat : 2 * regionMatches a b (fun _ => false) (b2jGet b)
        (a.length + b.length + 1) 0 a.length 0 b.length
        = a.length + b.length := by exact_mod_cast h
    have hle := regionMatches_le a b (a.length + b.length + 1) 0 a.length 0
      b.length (by omega) (by omega)
    have hfull := regionMatches_full a b (a.length + b.length + 1) 0 a.length 0
      b.length (by omega) (by omega) (by omega) (by omega)
    have hlen : a.length = b.length := by omega
    apply List.ext_getElem hlen
    intro n h1 h2
    have := hfull n (by omega)
    rw [List.getD_eq_getElem?_getD, List.getD_eq_getElem?_getD] at this
    rw [Nat.zero_add] at this
    rw [List.getElem?_eq_getElem h1, List.getElem?_eq_getElem h2] at this
    simpa using this

/-- C4 counterexample: the `difflib` ratio is not symmetric.  With
`a = "aba"` and `b = "babba"` the ratio is `3/4` one way and `1/2` the
other (the greedy leftmost-longest block choice differs with the argument
order), refuting `similarity(a,b) = similarity(b,a)` as stated. -/
theorem C4_counterexample :
    similarity ("aba") ("babba") = 3/4 ∧
    similarity ("babba") ("aba") = 1/2 ∧
    ((3 : ℚ)/4 ≠ 1/2) := by
  refine ⟨?_, ?_, ?_⟩
  · with_unfolding_all rfl
  · with_unfolding_all rfl
  · with_unfolding_all exact of_decide_eq_true rfl

/-- C4 as amended: symmetry fails (see the counterexample), but the other
two parts of the claim hold and are in fact an equivalence: the similarity
of two strings is exactly `1` if and only if their normalized
(lowercased, stripped) forms are equal.  In particular
`similarity a a = 1` for every string `a`. -/
theorem C4_amended (a b : String) :
    similarity a b = 1 ↔ normalizeAnswer a = normalizeAnswer b := by
  constructor
  · intro h
    unfold similarity at h
    have hdata := seqRatio_eq_one _ _ h
    unfold normalizeAnswer
    exact String.ext hdata
  · intro h
    unfold similarity
    unfold normalizeAnswer at h
    rw [show (pyStrip (pyLower a)).data = (pyStrip (pyLower b)).data from
      congrArg String.data h]
    exact seqRatio_self _

/-- Witness for C4 as amended at concrete inputs: `"42"` and `"  42 "`
normalize identically and get similarity `1`; the self-similarity
consequence `similarity a a = 1` is shown at `"aba"`. -/
theorem C4_amended_witness :
    similarity ("42") ("  42 ") = 1 ∧ similarity ("aba") ("aba") = 1 :=
  ⟨(C4_amended ("42") ("  42 ")).mpr (by with_unfolding_all rfl),
   (C4_amended ("aba") ("aba")).mpr rfl⟩

end AiEndsem
